import Mathlib

/-!
Verification development for the `twitter-tools` component of the
agent-skills repository: a shallow embedding of
`src/twitter-tools/twitter-archive.js`, `src/twitter-tools/lib/cache.js`
and the syndication client (`extractTweetId`, `fetchTweetFromApi`,
`formatTweet`), together with theorems settling the frozen claims about
idempotent archival, all-or-nothing failure semantics, best-bitrate
variant selection, deterministic media naming, error distinctions and
the tweet cache round trip.

Modelling conventions:
* JSON documents are the inductive `Json` below; JavaScript numbers are
  modelled in their exact-integer fragment (`Int`), which is the fragment
  the program manipulates (bitrates, counts).
* The filesystem is an association list from paths (segment lists) to
  file contents (strings); `fs.writeFileSync` prepends, `fs.readFileSync`
  finds the most recent entry.  Directories are implicit.
* Network access is an oracle (`Net`): the syndication response and a
  response per download URL.  Performed requests are recorded as events.
* JavaScript exceptions are `JsError` values (the `name` field models the
  error class, e.g. `Error` vs `SyntaxError`) threaded through `Except`
  or explicit result records.
-/

/-- JSON documents, with numbers restricted to the exact-integer fragment
of JavaScript numbers (the only numbers this program produces or
consumes). -/
inductive Json where
  | null : Json
  | bool : Bool → Json
  | num : Int → Json
  | str : String → Json
  | arr : List Json → Json
  | obj : List (String × Json) → Json

mutual

/-- Fuel bound used to run the JSON parser: counts parser stack frames
needed for a document. -/
def jsize : Json → Nat
  | .null => 1
  | .bool _ => 1
  | .num _ => 1
  | .str _ => 1
  | .arr xs => 2 + jsizeItems xs
  | .obj kvs => 2 + jsizeMembers kvs

/-- Fuel bound for a nonempty-array tail. -/
def jsizeItems : List Json → Nat
  | [] => 0
  | x :: xs => 1 + jsize x + jsizeItems xs

/-- Fuel bound for a nonempty-object tail. -/
def jsizeMembers : List (String × Json) → Nat
  | [] => 0
  | (_, v) :: kvs => 1 + jsize v + jsizeMembers kvs

end

/-- Decimal digit character for a value below ten. -/
def digitChar (n : Nat) : Char := Char.ofNat (48 + n)

/-- Lowercase hexadecimal digit character for a value below sixteen. -/
def hexChar (n : Nat) : Char := if n < 10 then Char.ofNat (48 + n) else Char.ofNat (87 + n)

/-- Decimal digits of a natural number (most significant first), with
explicit fuel; `fuel > 0` and the usual call `natDigits (n+1) n` always
suffice since the recursion depth is the digit count. -/
def natDigits : Nat → Nat → List Char
  | 0, _ => []
  | fuel + 1, n => if n < 10 then [digitChar n] else natDigits fuel (n / 10) ++ [digitChar (n % 10)]

/-- Decimal rendering of a natural number, as JavaScript renders integral
numbers. -/
def natStr (n : Nat) : String := ⟨natDigits (n + 1) n⟩

/-- Decimal rendering of an integer, as JavaScript renders integral
numbers. -/
def intStr (n : Int) : String := if n < 0 then "-" ++ natStr n.natAbs else natStr n.toNat

/-- Escape of one character inside a JSON string literal, following
`JSON.stringify`: quote, backslash and the named control characters get
two-character escapes, other control characters get `\u00XX`, everything
else is untouched. -/
def escChar (c : Char) : List Char :=
  if c = '"' then ['\\', '"']
  else if c = '\\' then ['\\', '\\']
  else if c = '\n' then ['\\', 'n']
  else if c = '\t' then ['\\', 't']
  else if c = '\r' then ['\\', 'r']
  else if c = '\x08' then ['\\', 'b']
  else if c = '\x0c' then ['\\', 'f']
  else if c.toNat < 32 then ['\\', 'u', '0', '0', hexChar (c.toNat / 16), hexChar (c.toNat % 16)]
  else [c]

/-- Escape of a character list inside a JSON string literal. -/
def escList : List Char → List Char
  | [] => []
  | c :: cs => escChar c ++ escList cs

/-- JSON string literal (quotes included) for a string, following
`JSON.stringify`. -/
def quoteL (s : String) : List Char := '"' :: escList s.data ++ ['"']

/-- JSON string literal (quotes included) for a string, following
`JSON.stringify`. -/
def quoteStr (s : String) : String := ⟨quoteL s⟩

/-- Decimal digits of an integer, as JavaScript renders integral numbers. -/
def intL (n : Int) : List Char :=
  if n < 0 then '-' :: natDigits (n.natAbs + 1) n.natAbs else natDigits (n.toNat + 1) n.toNat

/-- The two-space indentation step of `JSON.stringify(v, null, 2)`. -/
def sp2 : List Char := [' ', ' ']

mutual

/-- Rendering of a JSON value as `JSON.stringify(v, null, 2)` renders it,
where `ind` is the indentation of the surrounding context (the closing
bracket's indentation); children are indented two spaces further. -/
def strValL (ind : List Char) : Json → List Char
  | .null => ['n', 'u', 'l', 'l']
  | .bool b => if b then ['t', 'r', 'u', 'e'] else ['f', 'a', 'l', 's', 'e']
  | .num n => intL n
  | .str s => quoteL s
  | .arr [] => ['[', ']']
  | .arr (x :: xs) =>
      '[' :: '\n' :: (ind ++ sp2) ++ strValL (ind ++ sp2) x ++ strItemsL (ind ++ sp2) xs
        ++ '\n' :: ind ++ [']']
  | .obj [] => ['\x7b', '\x7d']
  | .obj ((k, v) :: kvs) =>
      '\x7b' :: '\n' :: (ind ++ sp2) ++ quoteL k ++ ':' :: ' ' :: strValL (ind ++ sp2) v
        ++ strMembersL (ind ++ sp2) kvs ++ '\n' :: ind ++ ['\x7d']

/-- Rendering of the second and later array elements: each preceded by a
comma, newline and the element indentation. -/
def strItemsL (ind : List Char) : List Json → List Char
  | [] => []
  | x :: xs => ',' :: '\n' :: ind ++ strValL ind x ++ strItemsL ind xs

/-- Rendering of the second and later object members. -/
def strMembersL (ind : List Char) : List (String × Json) → List Char
  | [] => []
  | (k, v) :: kvs => ',' :: '\n' :: ind ++ quoteL k ++ ':' :: ' ' :: strValL ind v ++ strMembersL ind kvs

end

/-- Rendering of a JSON value as `JSON.stringify(v, null, 2)` renders it:
the form the program writes to every cache, archive and metadata file. -/
def strPretty (j : Json) : String := ⟨strValL [] j⟩

mutual

/-- Compact rendering of a JSON value, as `JSON.stringify(v)` with no
spacing argument renders it: the form the program prints to stdout. -/
def strValC : Json → String
  | .null => "null"
  | .bool b => if b then "true" else "false"
  | .num n => intStr n
  | .str s => quoteStr s
  | .arr [] => "[]"
  | .arr (x :: xs) => "[" ++ strValC x ++ strItemsC xs ++ "]"
  | .obj [] => "\x7b\x7d"
  | .obj ((k, v) :: kvs) => "\x7b" ++ quoteStr k ++ ":" ++ strValC v ++ strMembersC kvs ++ "\x7d"

/-- Compact rendering of the second and later array elements. -/
def strItemsC : List Json → String
  | [] => ""
  | x :: xs => "," ++ strValC x ++ strItemsC xs

/-- Compact rendering of the second and later object members. -/
def strMembersC : List (String × Json) → String
  | [] => ""
  | (k, v) :: kvs => "," ++ quoteStr k ++ ":" ++ strValC v ++ strMembersC kvs

end

/-- Whitespace characters accepted between JSON tokens (the `JSON.parse`
whitespace set). -/
def isWsChar (c : Char) : Bool := c = ' ' || c = '\n' || c = '\t' || c = '\r'

/-- Skipping of leading whitespace. -/
def skipWs : List Char → List Char
  | [] => []
  | c :: rest => if isWsChar c then skipWs rest else c :: rest

/-- Numeric value of a hexadecimal digit character, if it is one. -/
def hexVal : Char → Option Nat :=
  fun c =>
    if c.isDigit then some (c.toNat - 48)
    else if 97 ≤ c.toNat ∧ c.toNat ≤ 102 then some (c.toNat - 87)
    else if 65 ≤ c.toNat ∧ c.toNat ≤ 70 then some (c.toNat - 55)
    else none

mutual

/-- Body of a JSON string literal after the opening quote: returns the
decoded characters and the input after the closing quote. -/
def parseStrBody : List Char → Option (List Char × List Char)
  | [] => none
  | c :: rest =>
    if c = '"' then some ([], rest)
    else if c = '\\' then parseStrEsc rest
    else (parseStrBody rest).map (fun p => (c :: p.1, p.2))

/-- Continuation of a JSON string literal after a backslash. -/
def parseStrEsc : List Char → Option (List Char × List Char)
  | [] => none
  | e :: r =>
    if e = '"' then (parseStrBody r).map (fun p => ('"' :: p.1, p.2))
    else if e = '\\' then (parseStrBody r).map (fun p => ('\\' :: p.1, p.2))
    else if e = '/' then (parseStrBody r).map (fun p => ('/' :: p.1, p.2))
    else if e = 'n' then (parseStrBody r).map (fun p => ('\n' :: p.1, p.2))
    else if e = 't' then (parseStrBody r).map (fun p => ('\t' :: p.1, p.2))
    else if e = 'r' then (parseStrBody r).map (fun p => ('\r' :: p.1, p.2))
    else if e = 'b' then (parseStrBody r).map (fun p => ('\x08' :: p.1, p.2))
    else if e = 'f' then (parseStrBody r).map (fun p => ('\x0c' :: p.1, p.2))
    else if e = 'u' then
      match r with
      | h1 :: h2 :: h3 :: h4 :: r' =>
        (hexVal h1).bind fun a =>
          (hexVal h2).bind fun b =>
            (hexVal h3).bind fun c' =>
              (hexVal h4).bind fun d =>
                (parseStrBody r').map
                  (fun p => (Char.ofNat (((a * 16 + b) * 16 + c') * 16 + d) :: p.1, p.2))
      | _ => none
    else none

end

/-- Longest digit run at the head of the input, folded into a number. -/
def parseDigits : List Char → Nat → Nat × List Char
  | [], acc => (acc, [])
  | c :: rest, acc =>
    if c.isDigit then parseDigits rest (acc * 10 + (c.toNat - 48)) else (acc, c :: rest)

mutual

/-- JSON value parser (the integral-number fragment of `JSON.parse`),
with fuel counting parser frames; skips leading whitespace, then
dispatches on the first character. -/
def parseVal : Nat → List Char → Option (Json × List Char)
  | 0, _ => none
  | fuel + 1, s =>
    match skipWs s with
    | [] => none
    | c :: rest =>
      if c = 'n' then
        match rest with
        | 'u' :: 'l' :: 'l' :: r => some (.null, r)
        | _ => none
      else if c = 't' then
        match rest with
        | 'r' :: 'u' :: 'e' :: r => some (.bool true, r)
        | _ => none
      else if c = 'f' then
        match rest with
        | 'a' :: 'l' :: 's' :: 'e' :: r => some (.bool false, r)
        | _ => none
      else if c = '"' then
        (parseStrBody rest).map (fun p => (.str ⟨p.1⟩, p.2))
      else if c = '-' then
        match rest with
        | c2 :: r2 =>
          if c2.isDigit then
            let p := parseDigits (c2 :: r2) 0
            some (.num (-(p.1 : Int)), p.2)
          else none
        | [] => none
      else if c = '[' then parseArr fuel rest
      else if c = '\x7b' then parseObj fuel rest
      else if c.isDigit then
        let p := parseDigits (c :: rest) 0
        some (.num (p.1 : Int), p.2)
      else none

/-- Array parser, after the opening bracket: empty array or a nonempty
item list. -/
def parseArr : Nat → List Char → Option (Json × List Char)
  | 0, _ => none
  | fuel + 1, s =>
    match skipWs s with
    | ']' :: rest => some (.arr [], rest)
    | s' => (parseItems fuel s').map (fun p => (.arr p.1, p.2))

/-- One or more comma-separated array items followed by the closing
bracket. -/
def parseItems : Nat → List Char → Option (List Json × List Char)
  | 0, _ => none
  | fuel + 1, s =>
    match parseVal fuel s with
    | none => none
    | some (v, r) =>
      match skipWs r with
      | ',' :: r' => (parseItems fuel r').map (fun p => (v :: p.1, p.2))
      | ']' :: r' => some ([v], r')
      | _ => none

/-- Object parser, after the opening brace: empty object or a nonempty
member list. -/
def parseObj : Nat → List Char → Option (Json × List Char)
  | 0, _ => none
  | fuel + 1, s =>
    match skipWs s with
    | '\x7d' :: rest => some (.obj [], rest)
    | s' => (parseMembers fuel s').map (fun p => (.obj p.1, p.2))

/-- One or more comma-separated `"key": value` members followed by the
closing brace. -/
def parseMembers : Nat → List Char → Option (List (String × Json) × List Char)
  | 0, _ => none
  | fuel + 1, s =>
    match skipWs s with
    | '"' :: r =>
      match parseStrBody r with
      | none => none
      | some (k, r1) =>
        match skipWs r1 with
        | ':' :: r2 =>
          match parseVal fuel r2 with
          | none => none
          | some (v, r3) =>
            match skipWs r3 with
            | ',' :: r4 => (parseMembers fuel r4).map (fun p => ((⟨k⟩, v) :: p.1, p.2))
            | '\x7d' :: r4 => some ([(⟨k⟩, v)], r4)
            | _ => none
        | _ => none
    | _ => none

end

/-- The exception `JSON.parse` raises on malformed input (a JavaScript
`SyntaxError`); also the model of every JavaScript exception: `name` is
the error class, `message` the human-readable text. -/
structure JsError where
  name : String
  message : String
deriving DecidableEq

/-- The raw exception raised by `JSON.parse` on malformed input. -/
def jsonSyntaxError : JsError := ⟨"SyntaxError", "Unexpected token in JSON"⟩

/-- Model of `JSON.parse` (integral-number fragment): parse one value,
require only trailing whitespace after it, raise `SyntaxError` otherwise. -/
def jsParse (s : String) : Except JsError Json :=
  match parseVal (s.data.length + 1) s.data with
  | some (j, rest) => if skipWs rest = [] then .ok j else .error jsonSyntaxError
  | none => .error jsonSyntaxError

/-- Heads that cannot extend a just-parsed number: empty input or a
non-digit first character. -/
def headNotDigit : List Char → Bool
  | [] => true
  | c :: _ => !c.isDigit

lemma skipWs_ws_append (w s : List Char) (h : w.all isWsChar = true) :
    skipWs (w ++ s) = skipWs s := by
  induction w with
  | nil => rfl
  | cons c cs ih =>
    simp only [List.all_cons, Bool.and_eq_true] at h
    simp [skipWs, h.1, ih h.2]

lemma skipWs_not_ws (c : Char) (s : List Char) (h : isWsChar c = false) :
    skipWs (c :: s) = c :: s := by
  simp [skipWs, h]

lemma digitChar_isDigit {d : Nat} (h : d < 10) : (digitChar d).isDigit = true := by
  revert h
  revert d
  decide

lemma digitChar_toNat {d : Nat} (h : d < 10) : (digitChar d).toNat = 48 + d := by
  revert h
  revert d
  decide

lemma natDigits_all_digit : ∀ fuel n, n < fuel →
    (natDigits fuel n).all Char.isDigit = true ∧ natDigits fuel n ≠ [] := by
  intro fuel
  induction fuel with
  | zero => omega
  | succ fuel ih =>
    intro n hn
    by_cases h10 : n < 10
    · simp [natDigits, h10, digitChar_isDigit h10]
    · have hdiv : n / 10 < fuel := by
        have := Nat.div_lt_self (by omega : 0 < n) (by omega : 1 < 10)
        omega
      have hmod : n % 10 < 10 := Nat.mod_lt _ (by omega)
      have ihd := ih (n / 10) hdiv
      simp [natDigits, h10, List.all_append, ihd.1, digitChar_isDigit hmod]

/-- Folding decimal digits into a value, as `parseDigits` accumulates. -/
def foldDigits (acc : Nat) (l : List Char) : Nat :=
  l.foldl (fun a c => a * 10 + (c.toNat - 48)) acc

lemma parseDigits_all_append (l rest : List Char) (acc : Nat)
    (h : l.all Char.isDigit = true) :
    parseDigits (l ++ rest) acc = parseDigits rest (foldDigits acc l) := by
  induction l generalizing acc with
  | nil => simp [foldDigits]
  | cons c cs ih =>
    simp only [List.all_cons, Bool.and_eq_true] at h
    simp [parseDigits, h.1, ih _ h.2, foldDigits]

lemma foldDigits_natDigits : ∀ fuel n acc, n < fuel →
    foldDigits acc (natDigits fuel n) = acc * 10 ^ (natDigits fuel n).length + n := by
  intro fuel
  induction fuel with
  | zero => omega
  | succ fuel ih =>
    intro n acc hn
    by_cases h10 : n < 10
    · simp [natDigits, h10, foldDigits, digitChar_toNat h10]
    · have hdiv : n / 10 < fuel := by
        have := Nat.div_lt_self (by omega : 0 < n) (by omega : 1 < 10)
        omega
      have hmod : n % 10 < 10 := Nat.mod_lt _ (by omega)
      have hdm := Nat.div_add_mod n 10
      have hstep : natDigits (fuel + 1) n = natDigits fuel (n / 10) ++ [digitChar (n % 10)] := by
        simp [natDigits, h10]
      rw [hstep]
      simp only [foldDigits, List.foldl_append, List.foldl_cons, List.foldl_nil,
        List.length_append, List.length_cons, List.length_nil]
      have ihd := ih (n / 10) acc hdiv
      simp only [foldDigits] at ihd
      rw [ihd, digitChar_toNat hmod]
      have hp : acc * 10 ^ ((natDigits fuel (n / 10)).length + (0 + 1))
          = acc * 10 ^ (natDigits fuel (n / 10)).length * 10 := by ring
      rw [hp]
      omega

lemma parseDigits_stop (rest : List Char) (acc : Nat) (h : headNotDigit rest = true) :
    parseDigits rest acc = (acc, rest) := by
  cases rest with
  | nil => rfl
  | cons c cs =>
    simp only [headNotDigit, Bool.not_eq_true'] at h
    simp [parseDigits, h]

lemma parseDigits_natDigits (n : Nat) (rest : List Char) (h : headNotDigit rest = true) :
    parseDigits (natDigits (n + 1) n ++ rest) 0 = (n, rest) := by
  have hall := natDigits_all_digit (n + 1) n (by omega)
  rw [parseDigits_all_append _ _ _ hall.1, parseDigits_stop _ _ h,
    foldDigits_natDigits (n + 1) n 0 (by omega)]
  simp

lemma hex_roundtrip (v : Nat) (h : v < 32) :
    hexVal (hexChar (v / 16)) = some (v / 16) ∧ hexVal (hexChar (v % 16)) = some (v % 16) := by
  revert h
  revert v
  decide

lemma parseStrBody_escList : ∀ (cs : List Char) (rest : List Char),
    parseStrBody (escList cs ++ '"' :: rest) = some (cs, rest) := by
  intro cs
  induction cs with
  | nil => intro rest; rfl
  | cons c cs ih =>
    intro rest
    have hstep : escList (c :: cs) = escChar c ++ escList cs := rfl
    rw [hstep, List.append_assoc]
    by_cases h1 : c = '"'
    · subst h1; simp [escChar, parseStrBody, parseStrEsc, ih rest]
    · by_cases h2 : c = '\\'
      · subst h2; simp [escChar, parseStrBody, parseStrEsc, ih rest]
      · by_cases h3 : c = '\n'
        · subst h3; simp [escChar, parseStrBody, parseStrEsc, ih rest]
        · by_cases h4 : c = '\t'
          · subst h4; simp [escChar, parseStrBody, parseStrEsc, ih rest]
          · by_cases h5 : c = '\r'
            · subst h5; simp [escChar, parseStrBody, parseStrEsc, ih rest]
            · by_cases h6 : c = '\x08'
              · subst h6; simp [escChar, parseStrBody, parseStrEsc, ih rest]
              · by_cases h7 : c = '\x0c'
                · subst h7; simp [escChar, parseStrBody, parseStrEsc, ih rest]
                · by_cases h8 : c.toNat < 32
                  · have hesc : escChar c
                        = ['\\', 'u', '0', '0', hexChar (c.toNat / 16), hexChar (c.toNat % 16)] := by
                      simp [escChar, h1, h2, h3, h4, h5, h6, h7, h8]
                    rw [hesc]
                    have hx := hex_roundtrip c.toNat h8
                    have harith : ((((0 : Nat) * 16 + 0) * 16 + c.toNat / 16) * 16 + c.toNat % 16)
                        = c.toNat := by omega
                    have h0 : hexVal '0' = some 0 := rfl
                    simp [parseStrBody, parseStrEsc, h0, hx.1, hx.2, ih rest]
                    have harith2 : c.toNat / 16 * 16 + c.toNat % 16 = c.toNat := by omega
                    rw [harith2, Char.ofNat_toNat]
                  · have hesc : escChar c = [c] := by
                      simp [escChar, h1, h2, h3, h4, h5, h6, h7, h8]
                    rw [hesc]
                    simp [parseStrBody, h1, h2, ih rest]

lemma digitChar_good : ∀ d, d < 10 →
    isWsChar (digitChar d) = false ∧ (digitChar d).isDigit = true
      ∧ digitChar d ≠ ']' ∧ digitChar d ≠ '\x7d' ∧ digitChar d ≠ 'n' ∧ digitChar d ≠ 't'
      ∧ digitChar d ≠ 'f' ∧ digitChar d ≠ '"' ∧ digitChar d ≠ '-' ∧ digitChar d ≠ '['
      ∧ digitChar d ≠ '\x7b' := by
  decide

lemma natDigits_head : ∀ fuel n, n < fuel →
    ∃ d t, d < 10 ∧ natDigits fuel n = digitChar d :: t := by
  intro fuel
  induction fuel with
  | zero => omega
  | succ fuel ih =>
    intro n hn
    by_cases h10 : n < 10
    · exact ⟨n, [], h10, by simp [natDigits, h10]⟩
    · have hdiv : n / 10 < fuel := by
        have := Nat.div_lt_self (by omega : 0 < n) (by omega : 1 < 10)
        omega
      obtain ⟨d, t, hd, ht⟩ := ih (n / 10) hdiv
      exact ⟨d, t ++ [digitChar (n % 10)], hd, by simp [natDigits, h10, ht]⟩

/-- Every rendered JSON value is nonempty and starts with a character
that is neither whitespace nor a closing bracket. -/
lemma strValL_head : ∀ (j : Json) (ind : List Char), ∃ c t, strValL ind j = c :: t
    ∧ isWsChar c = false ∧ c ≠ ']' ∧ c ≠ '\x7d' := by
  intro j ind
  cases j with
  | null => exact ⟨'n', _, rfl, by decide, by decide, by decide⟩
  | bool b =>
    cases b with
    | false => exact ⟨'f', _, rfl, by decide, by decide, by decide⟩
    | true => exact ⟨'t', _, rfl, by decide, by decide, by decide⟩
  | num n =>
    by_cases hneg : n < 0
    · exact ⟨'-', natDigits (n.natAbs + 1) n.natAbs, by simp [strValL, intL, hneg],
        by decide, by decide, by decide⟩
    · obtain ⟨d, t, hd, ht⟩ := natDigits_head (n.toNat + 1) n.toNat (by omega)
      have hg := digitChar_good d hd
      refine ⟨digitChar d, t, ?_, hg.1, hg.2.2.1, hg.2.2.2.1⟩
      simp [strValL, intL, hneg, ht]
  | str s => exact ⟨'"', escList s.data ++ ['"'], rfl, by decide, by decide, by decide⟩
  | arr xs =>
    cases xs with
    | nil => exact ⟨'[', _, rfl, by decide, by decide, by decide⟩
    | cons x xs => exact ⟨'[', _, rfl, by decide, by decide, by decide⟩
  | obj kvs =>
    cases kvs with
    | nil => exact ⟨'\x7b', _, rfl, by decide, by decide, by decide⟩
    | cons kv kvs =>
      obtain ⟨k, v⟩ := kv
      exact ⟨'\x7b', _, rfl, by decide, by decide, by decide⟩

lemma parseVal_ws (fuel : Nat) (w s : List Char) (h : w.all isWsChar = true) :
    parseVal fuel (w ++ s) = parseVal fuel s := by
  cases fuel with
  | zero => rfl
  | succ fuel => simp only [parseVal, skipWs_ws_append w s h]

lemma parseItems_ws (fuel : Nat) (w s : List Char) (h : w.all isWsChar = true) :
    parseItems fuel (w ++ s) = parseItems fuel s := by
  cases fuel with
  | zero => rfl
  | succ fuel => simp only [parseItems, parseVal_ws fuel w s h]

lemma parseMembers_ws (fuel : Nat) (w s : List Char) (h : w.all isWsChar = true) :
    parseMembers fuel (w ++ s) = parseMembers fuel s := by
  cases fuel with
  | zero => rfl
  | succ fuel => simp only [parseMembers, skipWs_ws_append w s h]

lemma parseVal_succ_null (fuel : Nat) (s : List Char) :
    parseVal (fuel + 1) ('n' :: 'u' :: 'l' :: 'l' :: s) = some (.null, s) := rfl

lemma parseVal_succ_true (fuel : Nat) (s : List Char) :
    parseVal (fuel + 1) ('t' :: 'r' :: 'u' :: 'e' :: s) = some (.bool true, s) := rfl

lemma parseVal_succ_false (fuel : Nat) (s : List Char) :
    parseVal (fuel + 1) ('f' :: 'a' :: 'l' :: 's' :: 'e' :: s) = some (.bool false, s) := rfl

lemma parseVal_succ_quote (fuel : Nat) (s : List Char) :
    parseVal (fuel + 1) ('"' :: s)
      = (parseStrBody s).map (fun p => (.str ⟨p.1⟩, p.2)) := rfl

lemma parseVal_succ_lbrack (fuel : Nat) (s : List Char) :
    parseVal (fuel + 1) ('[' :: s) = parseArr fuel s := rfl

lemma parseVal_succ_lbrace (fuel : Nat) (s : List Char) :
    parseVal (fuel + 1) ('\x7b' :: s) = parseObj fuel s := rfl

lemma parseVal_succ_minus (fuel : Nat) (c2 : Char) (s : List Char) (h : c2.isDigit = true) :
    parseVal (fuel + 1) ('-' :: c2 :: s)
      = some (.num (-((parseDigits (c2 :: s) 0).1 : Int)), (parseDigits (c2 :: s) 0).2) := by
  have hsk : skipWs ('-' :: c2 :: s) = '-' :: c2 :: s := skipWs_not_ws _ _ (by decide)
  simp [parseVal, hsk, h]

lemma parseVal_succ_digit (fuel d : Nat) (s : List Char) (hd : d < 10) :
    parseVal (fuel + 1) (digitChar d :: s)
      = some (.num ((parseDigits (digitChar d :: s) 0).1 : Int),
          (parseDigits (digitChar d :: s) 0).2) := by
  have hg := digitChar_good d hd
  simp [parseVal, skipWs_not_ws _ s hg.1, hg.2.1, hg.2.2.2.2.1, hg.2.2.2.2.2.1,
    hg.2.2.2.2.2.2.1, hg.2.2.2.2.2.2.2.1, hg.2.2.2.2.2.2.2.2.1, hg.2.2.2.2.2.2.2.2.2.1,
    hg.2.2.2.2.2.2.2.2.2.2]

lemma parseArr_succ_rbrack (fuel : Nat) (s : List Char) :
    parseArr (fuel + 1) (']' :: s) = some (.arr [], s) := rfl

lemma parseArr_succ_go (fuel : Nat) (c : Char) (t : List Char)
    (hws : isWsChar c = false) (hc : c ≠ ']') :
    parseArr (fuel + 1) (c :: t) = (parseItems fuel (c :: t)).map (fun p => (.arr p.1, p.2)) := by
  simp only [parseArr, skipWs_not_ws c t hws]
  split
  · next heq => exact absurd (List.cons_eq_cons.mp heq).1 hc
  · rfl

lemma parseObj_succ_rbrace (fuel : Nat) (s : List Char) :
    parseObj (fuel + 1) ('\x7d' :: s) = some (.obj [], s) := rfl

lemma parseObj_succ_go (fuel : Nat) (c : Char) (t : List Char)
    (hws : isWsChar c = false) (hc : c ≠ '\x7d') :
    parseObj (fuel + 1) (c :: t) = (parseMembers fuel (c :: t)).map (fun p => (.obj p.1, p.2)) := by
  simp only [parseObj, skipWs_not_ws c t hws]
  split
  · next heq => exact absurd (List.cons_eq_cons.mp heq).1 hc
  · rfl

lemma parseArr_ws (fuel : Nat) (w s : List Char) (h : w.all isWsChar = true) :
    parseArr fuel (w ++ s) = parseArr fuel s := by
  cases fuel with
  | zero => rfl
  | succ fuel => simp only [parseArr, skipWs_ws_append w s h]

lemma parseObj_ws (fuel : Nat) (w s : List Char) (h : w.all isWsChar = true) :
    parseObj fuel (w ++ s) = parseObj fuel s := by
  cases fuel with
  | zero => rfl
  | succ fuel => simp only [parseObj, skipWs_ws_append w s h]

lemma jsize_pos (j : Json) : 1 ≤ jsize j := by
  cases j <;> simp [jsize] <;> omega

/-- Printer–parser round trip, by strong induction on parser fuel: a
rendered value followed by a non-digit continuation parses back to
itself, and likewise for rendered array-item and object-member tails. -/
theorem parse_print : ∀ fuel : Nat,
    (∀ (j : Json) (ind rest : List Char), jsize j ≤ fuel → ind.all isWsChar = true →
        headNotDigit rest = true →
        parseVal fuel (strValL ind j ++ rest) = some (j, rest))
    ∧ (∀ (x : Json) (xs : List Json) (ind ind0 rest : List Char),
        jsizeItems (x :: xs) ≤ fuel → ind.all isWsChar = true → ind0.all isWsChar = true →
        headNotDigit rest = true →
        parseItems fuel (strValL ind x ++ strItemsL ind xs ++ '\n' :: ind0 ++ ']' :: rest)
          = some (x :: xs, rest))
    ∧ (∀ (k : String) (v : Json) (kvs : List (String × Json)) (ind ind0 rest : List Char),
        jsizeMembers ((k, v) :: kvs) ≤ fuel → ind.all isWsChar = true →
        ind0.all isWsChar = true → headNotDigit rest = true →
        parseMembers fuel
            (quoteL k ++ ':' :: ' ' :: strValL ind v ++ strMembersL ind kvs
              ++ '\n' :: ind0 ++ '\x7d' :: rest)
          = some ((k, v) :: kvs, rest)) := by
  intro fuel
  induction fuel using Nat.strong_induction_on with
  | _ fuel ih =>
  refine ⟨?_, ?_, ?_⟩
  · -- parseVal on a rendered value
    intro j ind rest hsz hind hrest
    cases fuel with
    | zero => have := jsize_pos j; omega
    | succ f =>
    cases j with
    | null => exact parseVal_succ_null f rest
    | bool b =>
      cases b with
      | true => exact parseVal_succ_true f rest
      | false => exact parseVal_succ_false f rest
    | num n =>
      by_cases hneg : n < 0
      · have hs : strValL ind (.num n) = '-' :: natDigits (n.natAbs + 1) n.natAbs := by
          simp [strValL, intL, hneg]
        obtain ⟨d, t, hd, ht⟩ := natDigits_head (n.natAbs + 1) n.natAbs (by omega)
        have hg := digitChar_good d hd
        have hinp : strValL ind (.num n) ++ rest = '-' :: digitChar d :: (t ++ rest) := by
          rw [hs, ht]; simp
        rw [hinp, parseVal_succ_minus f _ _ hg.2.1]
        have hpd : parseDigits (digitChar d :: (t ++ rest)) 0 = (n.natAbs, rest) := by
          have heq : digitChar d :: (t ++ rest) = (digitChar d :: t) ++ rest := rfl
          rw [heq, ← ht]
          exact parseDigits_natDigits _ _ hrest
        rw [hpd]
        have hn : -((n.natAbs : Nat) : Int) = n := by omega
        rw [hn]
      · have hs : strValL ind (.num n) = natDigits (n.toNat + 1) n.toNat := by
          simp [strValL, intL, hneg]
        obtain ⟨d, t, hd, ht⟩ := natDigits_head (n.toNat + 1) n.toNat (by omega)
        have hg := digitChar_good d hd
        have hinp : strValL ind (.num n) ++ rest = digitChar d :: (t ++ rest) := by
          rw [hs, ht]; simp
        rw [hinp, parseVal_succ_digit f d _ hd]
        have hpd : parseDigits (digitChar d :: (t ++ rest)) 0 = (n.toNat, rest) := by
          have heq : digitChar d :: (t ++ rest) = (digitChar d :: t) ++ rest := rfl
          rw [heq, ← ht]
          exact parseDigits_natDigits _ _ hrest
        rw [hpd]
        have hn : ((n.toNat : Nat) : Int) = n := by omega
        rw [hn]
    | str s =>
      have hinp : strValL ind (.str s) ++ rest = '"' :: (escList s.data ++ '"' :: rest) := by
        simp [strValL, quoteL]
      rw [hinp, parseVal_succ_quote, parseStrBody_escList]
      rfl
    | arr xs =>
      cases xs with
      | nil =>
        simp only [jsize, jsizeItems] at hsz
        cases f with
        | zero => omega
        | succ f2 => exact rfl
      | cons x xs =>
        simp only [jsize, jsizeItems] at hsz
        cases f with
        | zero => omega
        | succ f2 =>
        have hA : (ind ++ sp2).all isWsChar = true := by
          rw [List.all_append, hind, Bool.true_and]
          decide
        have hwsA : ('\n' :: (ind ++ sp2)).all isWsChar = true := by
          rw [List.all_cons, hA]
          decide
        have hinp : strValL ind (.arr (x :: xs)) ++ rest
            = '[' :: (('\n' :: (ind ++ sp2)) ++ (strValL (ind ++ sp2) x
                ++ strItemsL (ind ++ sp2) xs ++ '\n' :: ind ++ ']' :: rest)) := by
          simp [strValL, List.append_assoc]
        rw [hinp, parseVal_succ_lbrack, parseArr_ws _ _ _ hwsA]
        obtain ⟨c, t, hct, hws, hrb, _⟩ := strValL_head x (ind ++ sp2)
        have hrw2 : strValL (ind ++ sp2) x ++ strItemsL (ind ++ sp2) xs
              ++ '\n' :: ind ++ ']' :: rest
            = c :: (t ++ (strItemsL (ind ++ sp2) xs ++ '\n' :: ind ++ ']' :: rest)) := by
          rw [hct]; simp
        rw [hrw2, parseArr_succ_go f2 c _ hws hrb, ← hrw2]
        rw [(ih f2 (by omega)).2.1 x xs (ind ++ sp2) ind rest
          (by simp only [jsizeItems]; omega) hA hind hrest]
        rfl
    | obj kvs =>
      cases kvs with
      | nil =>
        simp only [jsize, jsizeMembers] at hsz
        cases f with
        | zero => omega
        | succ f2 => exact rfl
      | cons kv kvs =>
        obtain ⟨k, v⟩ := kv
        simp only [jsize, jsizeMembers] at hsz
        cases f with
        | zero => omega
        | succ f2 =>
        have hA : (ind ++ sp2).all isWsChar = true := by
          rw [List.all_append, hind, Bool.true_and]
          decide
        have hwsA : ('\n' :: (ind ++ sp2)).all isWsChar = true := by
          rw [List.all_cons, hA]
          decide
        have hinp : strValL ind (.obj ((k, v) :: kvs)) ++ rest
            = '\x7b' :: (('\n' :: (ind ++ sp2)) ++ (quoteL k ++ ':' :: ' '
                :: strValL (ind ++ sp2) v ++ strMembersL (ind ++ sp2) kvs
                ++ '\n' :: ind ++ '\x7d' :: rest)) := by
          simp [strValL, List.append_assoc]
        rw [hinp, parseVal_succ_lbrace, parseObj_ws _ _ _ hwsA]
        have hqhead : quoteL k ++ ':' :: ' ' :: strValL (ind ++ sp2) v
              ++ strMembersL (ind ++ sp2) kvs ++ '\n' :: ind ++ '\x7d' :: rest
            = '"' :: (escList k.data ++ ['"'] ++ (':' :: ' ' :: strValL (ind ++ sp2) v
                ++ strMembersL (ind ++ sp2) kvs ++ '\n' :: ind ++ '\x7d' :: rest)) := by
          simp [quoteL, List.append_assoc]
        rw [hqhead, parseObj_succ_go f2 '"' _ (by decide) (by decide), ← hqhead]
        rw [(ih f2 (by omega)).2.2 k v kvs (ind ++ sp2) ind rest
          (by simp only [jsizeMembers]; omega) hA hind hrest]
        rfl
  · -- parseItems on a rendered item list
    intro x xs ind ind0 rest hsz hind hind0 hrest
    simp only [jsizeItems] at hsz
    have hx1 := jsize_pos x
    cases fuel with
    | zero => omega
    | succ f =>
    have hrest1 : headNotDigit (strItemsL ind xs ++ '\n' :: ind0 ++ ']' :: rest) = true := by
      cases xs with
      | nil => exact rfl
      | cons y ys => exact rfl
    have hval := (ih f (by omega)).1 x ind _ (by omega) hind hrest1
    simp only [parseItems, List.append_assoc] at hval ⊢
    rw [hval]
    cases xs with
    | nil =>
      have hskip : skipWs (('\n' :: ind0) ++ ']' :: rest) = ']' :: rest := by
        rw [skipWs_ws_append _ _ (by rw [List.all_cons, hind0]; decide)]
        exact skipWs_not_ws _ _ (by decide)
      simp only [List.nil_append, strItemsL]
      rw [hskip]
      rfl
    | cons y ys =>
      have hitems : strItemsL ind (y :: ys) ++ (('\n' :: ind0) ++ (']' :: rest))
          = ',' :: (('\n' :: ind) ++ (strValL ind y ++ (strItemsL ind ys
              ++ (('\n' :: ind0) ++ (']' :: rest))))) := by
        simp [strItemsL, List.append_assoc]
      have hrec := (ih f (by omega)).2.1 y ys ind ind0 rest
        (by simp only [jsizeItems] at hsz ⊢; omega) hind hind0 hrest
      simp only [List.append_assoc] at hrec
      have hpi : parseItems f (('\n' :: ind) ++ (strValL ind y ++ (strItemsL ind ys
            ++ (('\n' :: ind0) ++ (']' :: rest))))) = some (y :: ys, rest) := by
        rw [parseItems_ws f _ _ (by rw [List.all_cons, hind]; decide)]
        simpa [List.append_assoc] using hrec
      simp only [hitems]
      rw [skipWs_not_ws ',' _ (by decide)]
      simp only [hpi, Option.map_some']
  · -- parseMembers on a rendered member list
    intro k v kvs ind ind0 rest hsz hind hind0 hrest
    simp only [jsizeMembers] at hsz
    have hv1 := jsize_pos v
    cases fuel with
    | zero => omega
    | succ f =>
    have hrest1 : headNotDigit (strMembersL ind kvs
        ++ (('\n' :: ind0) ++ ('\x7d' :: rest))) = true := by
      cases kvs with
      | nil => exact rfl
      | cons m ms =>
        obtain ⟨k2, v2⟩ := m
        exact rfl
    have hval := (ih f (by omega)).1 v ind _ (by omega) hind hrest1
    have hqhead : quoteL k ++ ':' :: ' ' :: strValL ind v ++ strMembersL ind kvs
          ++ '\n' :: ind0 ++ '\x7d' :: rest
        = '"' :: (escList k.data ++ '"' :: (':' :: ' ' :: (strValL ind v
            ++ (strMembersL ind kvs ++ (('\n' :: ind0) ++ ('\x7d' :: rest)))))) := by
      simp [quoteL, List.append_assoc]
    have hvalp : parseVal f (' ' :: (strValL ind v ++ (strMembersL ind kvs
          ++ (('\n' :: ind0) ++ ('\x7d' :: rest)))))
        = some (v, strMembersL ind kvs ++ (('\n' :: ind0) ++ ('\x7d' :: rest))) := by
      have h1 : (' ' :: (strValL ind v ++ (strMembersL ind kvs
            ++ (('\n' :: ind0) ++ ('\x7d' :: rest)))))
          = [' '] ++ (strValL ind v ++ (strMembersL ind kvs
              ++ (('\n' :: ind0) ++ ('\x7d' :: rest)))) := rfl
      rw [h1, parseVal_ws f _ _ (by decide)]
      simpa [List.append_assoc] using hval
    rw [hqhead]
    simp only [parseMembers]
    rw [skipWs_not_ws '"' _ (by decide)]
    simp only [parseStrBody_escList]
    rw [skipWs_not_ws ':' _ (by decide)]
    simp only [hvalp]
    cases kvs with
    | nil =>
      have hskip : skipWs (('\n' :: ind0) ++ '\x7d' :: rest) = '\x7d' :: rest := by
        rw [skipWs_ws_append _ _ (by rw [List.all_cons, hind0]; decide)]
        exact skipWs_not_ws _ _ (by decide)
      simp only [List.nil_append, strMembersL]
      rw [hskip]
      rfl
    | cons m ms =>
      obtain ⟨k2, v2⟩ := m
      have hmem : strMembersL ind ((k2, v2) :: ms) ++ (('\n' :: ind0) ++ ('\x7d' :: rest))
          = ',' :: (('\n' :: ind) ++ (quoteL k2 ++ (':' :: ' ' :: (strValL ind v2
              ++ (strMembersL ind ms ++ (('\n' :: ind0) ++ ('\x7d' :: rest))))))) := by
        simp [strMembersL, List.append_assoc]
      have hrec := (ih f (by omega)).2.2 k2 v2 ms ind ind0 rest
        (by simp only [jsizeMembers] at hsz ⊢; omega) hind hind0 hrest
      simp only [List.append_assoc] at hrec
      have hpm : parseMembers f (('\n' :: ind) ++ (quoteL k2 ++ (':' :: ' ' :: (strValL ind v2
            ++ (strMembersL ind ms ++ (('\n' :: ind0) ++ ('\x7d' :: rest)))))))
          = some ((k2, v2) :: ms, rest) := by
        rw [parseMembers_ws f _ _ (by rw [List.all_cons, hind]; decide)]
        simpa [List.append_assoc] using hrec
      simp only [hmem]
      rw [skipWs_not_ws ',' _ (by decide)]
      simp only [hpm, Option.map_some']

lemma jsize_le_length_aux : ∀ N : Nat,
    (∀ j : Json, jsize j ≤ N → ∀ ind, jsize j ≤ (strValL ind j).length + 1)
    ∧ (∀ xs : List Json, jsizeItems xs ≤ N → ∀ ind, jsizeItems xs ≤ (strItemsL ind xs).length)
    ∧ (∀ kvs : List (String × Json), jsizeMembers kvs ≤ N →
        ∀ ind, jsizeMembers kvs ≤ (strMembersL ind kvs).length) := by
  intro N
  induction N using Nat.strong_induction_on with
  | _ N ih =>
  refine ⟨?_, ?_, ?_⟩
  · intro j hj ind
    cases j with
    | null => simp [jsize]
    | bool b => simp [jsize]
    | num n => simp [jsize]
    | str s => simp [jsize]
    | arr xs =>
      cases xs with
      | nil => simp [jsize, jsizeItems, strValL]
      | cons x xs =>
        simp only [jsize, jsizeItems] at hj ⊢
        have h1 := jsize_pos x
        have hit : jsizeItems (x :: xs) ≤ jsizeItems (x :: xs) := le_rfl
        have hlt : jsizeItems (x :: xs) < N := by simp only [jsizeItems]; omega
        have hb := (ih (jsizeItems (x :: xs)) hlt).2.1 (x :: xs) le_rfl (ind ++ sp2)
        simp only [jsizeItems] at hb
        have hlen : (strValL ind (.arr (x :: xs))).length
            = 2 + ((ind ++ sp2).length + ((strValL (ind ++ sp2) x).length
              + ((strItemsL (ind ++ sp2) xs).length + (1 + (ind.length + 1))))) := by
          simp [strValL, List.length_append, List.length_cons]
          omega
        rw [hlen]
        have hx := (ih (jsize x) (by omega)).1 x le_rfl (ind ++ sp2)
        have hxs : jsizeItems xs ≤ (strItemsL (ind ++ sp2) xs).length := by
          cases xs with
          | nil => simp [jsizeItems]
          | cons y ys =>
            have hlt2 : jsizeItems (y :: ys) < N := by simp only [jsizeItems] at hj ⊢; omega
            exact (ih _ hlt2).2.1 (y :: ys) le_rfl (ind ++ sp2)
        omega
    | obj kvs =>
      cases kvs with
      | nil => simp [jsize, jsizeMembers, strValL]
      | cons kv kvs =>
        obtain ⟨k, v⟩ := kv
        simp only [jsize, jsizeMembers] at hj ⊢
        have h1 := jsize_pos v
        have hlen : (strValL ind (.obj ((k, v) :: kvs))).length
            = 2 + ((ind ++ sp2).length + ((quoteL k).length + (2 + ((strValL (ind ++ sp2) v).length
              + ((strMembersL (ind ++ sp2) kvs).length + (1 + (ind.length + 1))))))) := by
          simp [strValL, List.length_append, List.length_cons]
          omega
        rw [hlen]
        have hv := (ih (jsize v) (by omega)).1 v le_rfl (ind ++ sp2)
        have hkvs : jsizeMembers kvs ≤ (strMembersL (ind ++ sp2) kvs).length := by
          cases kvs with
          | nil => simp [jsizeMembers]
          | cons m ms =>
            obtain ⟨k2, v2⟩ := m
            have hlt2 : jsizeMembers ((k2, v2) :: ms) < N := by
              simp only [jsizeMembers] at hj ⊢
              omega
            exact (ih _ hlt2).2.2 ((k2, v2) :: ms) le_rfl (ind ++ sp2)
        omega
  · intro xs hxs ind
    cases xs with
    | nil => simp [jsizeItems]
    | cons x xs =>
      simp only [jsizeItems] at hxs ⊢
      have h1 := jsize_pos x
      have hx := (ih (jsize x) (by omega)).1 x le_rfl ind
      have hrest : jsizeItems xs ≤ (strItemsL ind xs).length := by
        cases xs with
        | nil => simp [jsizeItems]
        | cons y ys =>
          have hlt2 : jsizeItems (y :: ys) < N := by simp only [jsizeItems] at hxs ⊢; omega
          exact (ih _ hlt2).2.1 (y :: ys) le_rfl ind
      have hlen : (strItemsL ind (x :: xs)).length
          = 2 + (ind.length + ((strValL ind x).length + (strItemsL ind xs).length)) := by
        simp [strItemsL, List.length_append, List.length_cons]
        omega
      rw [hlen]
      omega
  · intro kvs hkvs ind
    cases kvs with
    | nil => simp [jsizeMembers]
    | cons kv kvs =>
      obtain ⟨k, v⟩ := kv
      simp only [jsizeMembers] at hkvs ⊢
      have h1 := jsize_pos v
      have hv := (ih (jsize v) (by omega)).1 v le_rfl ind
      have hrest : jsizeMembers kvs ≤ (strMembersL ind kvs).length := by
        cases kvs with
        | nil => simp [jsizeMembers]
        | cons m ms =>
          obtain ⟨k2, v2⟩ := m
          have hlt2 : jsizeMembers ((k2, v2) :: ms) < N := by
            simp only [jsizeMembers] at hkvs ⊢
            omega
          exact (ih _ hlt2).2.2 ((k2, v2) :: ms) le_rfl ind
      have hlen : (strMembersL ind ((k, v) :: kvs)).length
          = 2 + (ind.length + ((quoteL k).length + (2 + ((strValL ind v).length
            + (strMembersL ind kvs).length)))) := by
        simp [strMembersL, List.length_append, List.length_cons]
        omega
      rw [hlen]
      omega

/-- The serialize-then-parse round trip is the identity: `JSON.parse` of
`JSON.stringify(v, null, 2)` recovers the document exactly. -/
theorem jsParse_strPretty (j : Json) : jsParse (strPretty j) = .ok j := by
  have hlen := (jsize_le_length_aux (jsize j)).1 j le_rfl []
  have hpp := (parse_print ((strValL [] j).length + 1)).1 j [] [] (by omega) rfl rfl
  rw [List.append_nil] at hpp
  show (match parseVal ((strValL [] j).length + 1) (strValL [] j) with
    | some (v, rest) => if skipWs rest = [] then Except.ok v else Except.error jsonSyntaxError
    | none => Except.error jsonSyntaxError) = Except.ok j
  rw [hpp]
  rfl

/-- File-system paths as the segment lists the code hands to `path.join`;
segments are opaque (no separators inside them). -/
abbrev FsPath := List String

/-- The file system: an association list from paths to file contents;
`fs.writeFileSync` prepends, `fs.readFileSync`/`fs.existsSync` consult the
most recent entry.  Directories are implicit (`mkdirSync` is a no-op). -/
abbrev FS := List (FsPath × String)

/-- Content of the file at a path, if present. -/
def FS.read (fs : FS) (p : FsPath) : Option String :=
  (fs.find? (fun e => decide (e.1 = p))).map (fun e => e.2)

/-- Overwriting write of a file. -/
def FS.write (fs : FS) (p : FsPath) (c : String) : FS := (p, c) :: fs

/-- Ambient process environment: home directory (`os.homedir()`), working
directory (for `path.resolve`) and the current time (`new
Date().toISOString()`). -/
structure Env where
  home : FsPath
  cwd : FsPath
  now : String

/-- An HTTP response as the fetch API exposes it. -/
structure HttpResponse where
  status : Nat
  statusText : String
  body : String

/-- `response.ok`: status in the 2xx range. -/
def HttpResponse.ok (r : HttpResponse) : Bool :=
  decide (200 ≤ r.status) && decide (r.status < 300)

/-- The network oracle: the syndication API's response for the tweet
lookup, and a response per download URL. -/
structure Net where
  tweetResponse : HttpResponse
  download : String → HttpResponse

/-- A performed network request. -/
inductive NetEvent where
  | apiFetch (tweetId : String)
  | download (url : String)
deriving DecidableEq

/-- Last-wins field lookup in an object's member list (later JavaScript
object keys shadow earlier ones). -/
def lookupField : List (String × Json) → String → Option Json
  | [], _ => none
  | (k2, v) :: rest, k =>
    match lookupField rest k with
    | some r => some r
    | none => if k2 = k then some v else none

/-- Property access `obj.k`: `undefined` (none) for absent keys and for
non-object bases reached through optional chaining. -/
def jsGet (j : Json) (k : String) : Option Json :=
  match j with
  | .obj kvs => lookupField kvs k
  | _ => none

/-- Two-step property access `obj.k1?.k2`. -/
def jsGet2 (j : Json) (k1 k2 : String) : Option Json :=
  (jsGet j k1).bind (fun u => jsGet u k2)

/-- JavaScript truthiness of a possibly-undefined value. -/
def jsTruthy : Option Json → Bool
  | none => false
  | some .null => false
  | some (.bool b) => b
  | some (.num n) => decide (n ≠ 0)
  | some (.str s) => decide (s ≠ "")
  | some (.arr _) => true
  | some (.obj _) => true

/-- An object-literal property whose value may be `undefined`:
`JSON.stringify` omits such properties, so the model includes the field
only when the value is defined. -/
def optField (k : String) (v : Option Json) : List (String × Json) :=
  match v with
  | some j => [(k, j)]
  | none => []

/-- `a || b` on possibly-undefined values. -/
def jsOrOpt (a b : Option Json) : Option Json := if jsTruthy a then a else b

/-- `a || d` with a defined default. -/
def jsOr (a : Option Json) (d : Json) : Json := if jsTruthy a then a.getD d else d

mutual

/-- Template-literal interpolation `${v}` of a defined value (primitive
cases exact; objects render as their JavaScript `[object Object]`). -/
def jsTemplateVal : Json → String
  | .null => "null"
  | .bool b => if b then "true" else "false"
  | .num n => intStr n
  | .str s => s
  | .arr xs => jsTemplateArr xs
  | .obj _ => "[object Object]"

/-- `Array.prototype.toString`: elements joined by commas, with `null`
elements rendered empty. -/
def jsTemplateArr : List Json → String
  | [] => ""
  | [x] => jsTemplateElem x
  | x :: xs => jsTemplateElem x ++ "," ++ jsTemplateArr xs

/-- One element of an array join (`null` renders empty there). -/
def jsTemplateElem : Json → String
  | .null => ""
  | .bool b => if b then "true" else "false"
  | .num n => intStr n
  | .str s => s
  | .arr xs => jsTemplateArr xs
  | .obj _ => "[object Object]"

end

/-- Template-literal interpolation of a possibly-undefined value
(`${undefined}` renders as the text `undefined`). -/
def jsTemplate : Option Json → String
  | none => "undefined"
  | some j => jsTemplateVal j

/-- Stable insertion into a descending-sorted list. -/
def insertDescBy (key : Json → Int) (x : Json) : List Json → List Json
  | [] => [x]
  | y :: ys => if key x < key y then y :: insertDescBy key x ys else x :: y :: ys

/-- Stable descending sort by an integer key: the model of
`Array.prototype.sort` with comparator `(a, b) => key(b) - key(a)`
(stable per the ECMAScript specification, as in all current engines). -/
def sortDescBy (key : Json → Int) : List Json → List Json
  | [] => []
  | x :: xs => insertDescBy key x (sortDescBy key xs)

/-- cache.js `getCacheDir`: `path.join(os.homedir(), '.cache',
'twitter-tools')`, optionally with a subdirectory. -/
def getCacheDir (home : FsPath) (subdir : Option String) : FsPath :=
  match subdir with
  | some s => home ++ [".cache", "twitter-tools", s]
  | none => home ++ [".cache", "twitter-tools"]

/-- cache.js `getArchiveDir`: the per-ID archive directory. -/
def getArchiveDir (home : FsPath) (tweetId : String) : FsPath :=
  getCacheDir home (some "archives") ++ [tweetId]

/-- The metadata marker file's path (`path.join(archiveDir,
'metadata.json')` over the default archive directory). -/
def metadataPath (home : FsPath) (tweetId : String) : FsPath :=
  getArchiveDir home tweetId ++ ["metadata.json"]

/-- The per-ID tweet cache file's path (`<cache>/tweets/<id>.json`). -/
def tweetCachePath (home : FsPath) (tweetId : String) : FsPath :=
  getCacheDir home (some "tweets") ++ [tweetId ++ ".json"]

/-- cache.js `isArchived`: existence of the metadata marker file. -/
def isArchived (home : FsPath) (fs : FS) (tweetId : String) : Bool :=
  (FS.read fs (metadataPath home tweetId)).isSome

/-- cache.js `getCachedTweet`: the parsed cache file, or null when the
file is absent or `JSON.parse` throws (the catch returns null). -/
def getCachedTweet (home : FsPath) (fs : FS) (tweetId : String) : Option Json :=
  match FS.read fs (tweetCachePath home tweetId) with
  | some data =>
    match jsParse data with
    | .ok j => some j
    | .error _ => none
  | none => none

/-- cache.js `cacheTweet`: write the pretty-printed document to the
per-ID cache file. -/
def cacheTweet (home : FsPath) (fs : FS) (tweetId : String) (data : Json) : FS :=
  FS.write fs (tweetCachePath home tweetId) (strPretty data)

/-- cache.js `getArchiveMetadata`: the parsed metadata marker, or null
when absent or corrupt. -/
def getArchiveMetadata (home : FsPath) (fs : FS) (tweetId : String) : Option Json :=
  match FS.read fs (metadataPath home tweetId) with
  | some data =>
    match jsParse data with
    | .ok j => some j
    | .error _ => none
  | none => none

/-- cache.js `saveArchiveMetadata`: write the pretty-printed metadata
record to the marker path. -/
def saveArchiveMetadata (home : FsPath) (fs : FS) (tweetId : String) (metadata : Json) : FS :=
  FS.write fs (metadataPath home tweetId) (strPretty metadata)

/-- cache.js `downloadFile`: fetch the URL, throw `Failed to download:
<status>` on a non-ok response, otherwise write the body to the
destination path. -/
def downloadFile (net : Net) (url : String) (destPath : FsPath) (fs : FS) : Except JsError FS :=
  let response := net.download url
  if response.ok then .ok (FS.write fs destPath response.body)
  else .error ⟨"Error", "Failed to download: " ++ natStr response.status⟩

/-- `s.startsWith(pre)` on the character lists. -/
def strStartsWith (s pre : String) : Bool := pre.data.isPrefixOf s.data

/-- A `\w` word character. -/
def isWordChar (c : Char) : Bool := c.isAlphanum || c = '_'

/-- Match of the `\w+/status/(\d+)` tail of the first extractTweetId URL
pattern at the current position. -/
def matchStatusTail (s : List Char) : Option String :=
  let w := s.takeWhile isWordChar
  let r1 := s.dropWhile isWordChar
  if !w.isEmpty && "/status/".data.isPrefixOf r1 then
    let d := (r1.drop 8).takeWhile Char.isDigit
    if !d.isEmpty then some ⟨d⟩ else none
  else none

/-- Match of the `i/web/status/(\d+)` tail of the second extractTweetId
URL pattern at the current position. -/
def matchWebStatusTail (s : List Char) : Option String :=
  if "i/web/status/".data.isPrefixOf s then
    let d := (s.drop 13).takeWhile Char.isDigit
    if !d.isEmpty then some ⟨d⟩ else none
  else none

/-- Scan for the first position where `twitter.com/` or `x.com/` is
followed by a matching tail, modelling `input.match(pattern)` for the two
extractTweetId patterns. -/
def scanHost (tail : List Char → Option String) : List Char → Option String
  | [] => none
  | c :: rest =>
    if "twitter.com/".data.isPrefixOf (c :: rest) then
      match tail ((c :: rest).drop 12) with
      | some d => some d
      | none => scanHost tail rest
    else if "x.com/".data.isPrefixOf (c :: rest) then
      match tail ((c :: rest).drop 6) with
      | some d => some d
      | none => scanHost tail rest
    else scanHost tail rest

/-- syndication.js `extractTweetId`: a pure-digit input is returned as
is (`/^\d+$/`); otherwise the two status-URL patterns are tried in order;
otherwise `Could not extract tweet ID from: <input>` is thrown. -/
def extractTweetId (input : String) : Except JsError String :=
  if !input.data.isEmpty && input.data.all Char.isDigit then .ok input
  else
    match scanHost matchStatusTail input.data with
    | some tid => .ok tid
    | none =>
      match scanHost matchWebStatusTail input.data with
      | some tid => .ok tid
      | none => .error ⟨"Error", "Could not extract tweet ID from: " ++ input⟩

/-- syndication.js `fetchTweetFromApi`: a non-ok response throws `Tweet
not found: <id>` for status 404 and `Failed to fetch tweet: <status>
<statusText>` otherwise; an empty body throws `Empty response for tweet:
<id>`; otherwise the body goes straight to `JSON.parse`, whose
`SyntaxError` propagates unwrapped.  The request URL (with the
float-arithmetic token of `getToken`) is abstracted by the network
oracle. -/
def fetchTweetFromApi (net : Net) (tweetId : String) : Except JsError Json :=
  let response := net.tweetResponse
  if !response.ok then
    if response.status = 404 then .error ⟨"Error", "Tweet not found: " ++ tweetId⟩
    else .error ⟨"Error", "Failed to fetch tweet: " ++ natStr response.status
      ++ " " ++ response.statusText⟩
  else if response.body = "" then .error ⟨"Error", "Empty response for tweet: " ++ tweetId⟩
  else jsParse response.body

/-- `media.type === t` for a formatted or raw media entry. -/
def isTypeStr (m : Json) (t : String) : Bool :=
  match jsGet m "type" with
  | some (.str s) => decide (s = t)
  | _ => false

/-- The sort key `(v.bitrate || 0)` (a variant with no numeric bitrate
counts as zero). -/
def bitrateKey (v : Json) : Int :=
  match jsGet v "bitrate" with
  | some (.num n) => n
  | _ => 0

/-- `v.content_type === 'video/mp4'` (mediaDetails variants). -/
def isMp4 (v : Json) : Bool :=
  match jsGet v "content_type" with
  | some (.str s) => decide (s = "video/mp4")
  | _ => false

/-- `v.type === 'video/mp4'` (the alternate `tweet.video` variants use a
different field name). -/
def isMp4Alt (v : Json) : Bool :=
  match jsGet v "type" with
  | some (.str s) => decide (s = "video/mp4")
  | _ => false

/-- The filtered-and-sorted MP4 variant list formatTweet computes for one
mediaDetails entry: `(media.video_info?.variants || [])` filtered to MP4
and sorted by descending `(bitrate || 0)`. -/
def mediaMp4s (m : Json) : List Json :=
  let variants := match jsGet2 m "video_info" "variants" with
    | some (.arr vs) => vs
    | _ => []
  sortDescBy bitrateKey (variants.filter isMp4)

/-- The projection `{ url: v.url, bitrate: v.bitrate }` of a variant. -/
def pickVariant (v : Json) : Json :=
  Json.obj (optField "url" (jsGet v "url") ++ optField "bitrate" (jsGet v "bitrate"))

/-- One iteration of formatTweet's mediaDetails loop: photos and
video/animated_gif entries push one formatted item, other types none. -/
def formatMediaItem (m : Json) : List Json :=
  if isTypeStr m "photo" then
    [Json.obj ([("type", Json.str "photo")] ++ optField "url" (jsGet m "media_url_https"))]
  else if isTypeStr m "video" || isTypeStr m "animated_gif" then
    [Json.obj (optField "type" (jsGet m "type")
      ++ optField "thumbnail" (jsGet m "media_url_https")
      ++ [("variants", Json.arr ((mediaMp4s m).map pickVariant))])]
  else []

/-- `tweet.mediaDetails` as the list the loop iterates (empty when absent
or not an array). -/
def tweetMediaDetails (tweet : Json) : List Json :=
  match jsGet tweet "mediaDetails" with
  | some (.arr ms) => ms
  | _ => []

/-- The projection `{ url: v.src, bitrate: v.bitrate }` of an alternate
variant. -/
def altPickVariant (v : Json) : Json :=
  Json.obj (optField "url" (jsGet v "src") ++ optField "bitrate" (jsGet v "bitrate"))

/-- The sorted MP4 list of the alternate `tweet.video.variants` path. -/
def altMp4s (tweet : Json) : List Json :=
  match jsGet2 tweet "video" "variants" with
  | some (.arr vs) => sortDescBy bitrateKey (vs.filter isMp4Alt)
  | _ => []

/-- The flattened media list formatTweet builds: the mediaDetails items,
plus the alternate `tweet.video` item when `tweet.video?.variants` is
truthy, the MP4 list is nonempty and no `video`-typed item is present
yet. -/
def formatTweetMedia (tweet : Json) : List Json :=
  let base := (tweetMediaDetails tweet).flatMap formatMediaItem
  if jsTruthy (jsGet2 tweet "video" "variants") then
    if !(altMp4s tweet).isEmpty && !(base.any (fun m => isTypeStr m "video")) then
      base ++ [Json.obj ([("type", Json.str "video")]
        ++ optField "thumbnail" (jsGet2 tweet "video" "poster")
        ++ [("variants", Json.arr ((altMp4s tweet).map altPickVariant))])]
    else base
  else base

/-- The `has_video` flag: set in the loop for video/animated_gif entries
and whenever `tweet.video?.variants` is truthy. -/
def formatTweetHasVideo (tweet : Json) : Bool :=
  (tweetMediaDetails tweet).any (fun m => isTypeStr m "video" || isTypeStr m "animated_gif")
    || jsTruthy (jsGet2 tweet "video" "variants")

/-- syndication.js `formatTweet`: the formatted projection, with
properties in insertion order and undefined-valued properties omitted (as
`JSON.stringify` omits them). -/
def formatTweet (tweet : Json) : Json :=
  Json.obj (
    optField "id" (jsGet tweet "id_str")
    ++ [("url", Json.str ("https://twitter.com/" ++ jsTemplate (jsGet2 tweet "user" "screen_name")
        ++ "/status/" ++ jsTemplate (jsGet tweet "id_str")))]
    ++ optField "text" (jsGet tweet "text")
    ++ optField "created_at" (jsGet tweet "created_at")
    ++ [("user", Json.obj (
        optField "name" (jsGet2 tweet "user" "name")
        ++ optField "screen_name" (jsGet2 tweet "user" "screen_name")
        ++ optField "profile_image" (jsGet2 tweet "user" "profile_image_url_https")
        ++ optField "verified" (jsOrOpt (jsGet2 tweet "user" "verified")
            (jsGet2 tweet "user" "is_blue_verified"))))]
    ++ [("metrics", Json.obj (
        optField "favorites" (jsGet tweet "favorite_count")
        ++ optField "replies" (jsGet tweet "reply_count")
        ++ optField "quotes" (jsGet tweet "quote_count")))]
    ++ [("media", Json.arr (formatTweetMedia tweet)),
        ("has_video", Json.bool (formatTweetHasVideo tweet))]
    ++ (match jsGet tweet "quoted_tweet" with
        | some qt =>
          if jsTruthy (some qt) then
            [("quoted_tweet", Json.obj (
              optField "id" (jsGet qt "id_str")
              ++ optField "text" (jsGet qt "text")
              ++ optField "user" (jsGet2 qt "user" "screen_name")))]
          else []
        | none => [])
    ++ (if jsTruthy (jsGet tweet "in_reply_to_status_id_str") then
          [("reply_to", Json.obj (
            optField "tweet_id" (jsGet tweet "in_reply_to_status_id_str")
            ++ optField "user" (jsGet tweet "in_reply_to_screen_name")))]
        else []))

/-- The usage text `printUsage` prints — to standard output, via
`console.log`. -/
def usageText : String := "Usage: twitter-archive.js <tweet-url> [options]\n\nArchive a Twitter/X tweet with all media files.\n\nArguments:\n  tweet-url         Tweet URL or ID\n\nOptions:\n  --dir             Custom output directory (default: ~/.cache/twitter-tools/archives/<id>)\n  --force           Re-archive even if already exists\n  --help            Show this help message\n\nExamples:\n  twitter-archive.js https://twitter.com/user/status/1234567890\n  twitter-archive.js 1234567890 --dir ./my-archive\n  twitter-archive.js https://x.com/user/status/1234567890 --force"

/-- The argument-parsing loop of main (twitter-archive.js lines 65-74):
`--dir` consumes the following argument (undefined when it is the last
one), `--force` sets the flag, and any argument not starting with a dash
becomes the input, last one winning. -/
def parseArgs : List String → Option String → Option String → Bool →
    Option String × Option String × Bool
  | [], input, customDir, force => (input, customDir, force)
  | a :: rest, input, customDir, force =>
    if a = "--dir" then
      match rest with
      | b :: rest2 => parseArgs rest2 input (some b) force
      | [] => parseArgs [] input none force
    else if a = "--force" then parseArgs rest input customDir true
    else if !(strStartsWith a "-") then parseArgs rest (some a) customDir force
    else parseArgs rest input customDir force

/-- Scan from the scheme separator `://`, when one is present. -/
def dropThroughScheme : List Char → Option (List Char)
  | [] => none
  | c :: rest =>
    if [':', '/', '/'].isPrefixOf (c :: rest) then some ((c :: rest).drop 3)
    else dropThroughScheme rest

/-- The pathname component of a URL (model of `new URL(url).pathname`):
from the first slash after the scheme and host up to any query or
fragment.  An input without a scheme separator is treated as a bare path
(the real `new URL` would throw for it; the program only ever passes
API-supplied absolute URLs). -/
def urlPathname (url : String) : String :=
  let afterScheme := match dropThroughScheme url.data with
    | some r => r
    | none => url.data
  let path := afterScheme.dropWhile (fun c => c ≠ '/')
  ⟨path.takeWhile (fun c => c ≠ '?' && c ≠ '#')⟩

/-- `path.extname(p).slice(1)`: the extension after the last dot of the
last path segment; empty when the dot is absent, leading (a dotfile), or
trailing. -/
def getExtensionCore (p : String) : String :=
  let baseRev := p.data.reverse.takeWhile (fun c => c ≠ '/')
  let extRev := baseRev.takeWhile (fun c => c ≠ '.')
  match baseRev.dropWhile (fun c => c ≠ '.') with
  | [] => ""
  | _ :: t => if t.isEmpty then "" else ⟨extRev.reverse⟩

/-- twitter-archive.js `getExtension`: the URL pathname's extension, or
the default when it is empty. -/
def getExtension (url : String) (defaultExt : String) : String :=
  let ext := getExtensionCore (urlPathname url)
  if ext = "" then defaultExt else ext

/-- Flat string form of a segment path, as recorded in the metadata's
`archive_dir` field. -/
def pathToString (p : FsPath) : String :=
  match p with
  | [] => ""
  | [s] => s
  | s :: rest => s ++ "/" ++ pathToString rest

/-- Model of `path.resolve(customDir)`: an absolute argument stands
alone, a relative one is resolved against the working directory (segments
stay opaque; no `..` normalization). -/
def resolvePath (cwd : FsPath) (cd : String) : FsPath :=
  if strStartsWith cd "/" then [cd] else cwd ++ [cd]

/-- Result of the media download loop. -/
structure LoopOut where
  error : Option JsError
  fs : FS
  mediaFiles : List String
  errLines : List String
  jobs : List (String × String)

/-- The thumbnail half of the video/animated_gif step (twitter-archive.js
lines 136-144): a truthy thumbnail is downloaded as
`media_<n>_thumb.<ext>`; a truthy non-string thumbnail makes `new URL`
throw a TypeError.  Returns (error, fs, filenames, stderr lines,
attempted downloads). -/
def thumbStep (net : Net) (archiveDir : FsPath) (m : Json) (mediaIndex : Nat) (fs : FS) :
    Option JsError × FS × List String × List String × List (String × String) :=
  if jsTruthy (jsGet m "thumbnail") then
    match jsGet m "thumbnail" with
    | some (.str t) =>
      let thumbExt := getExtension t "jpg"
      let thumbFilename := "media_" ++ natStr mediaIndex ++ "_thumb." ++ thumbExt
      let errLine := "Downloading thumbnail: " ++ thumbFilename
      match downloadFile net t (archiveDir ++ [thumbFilename]) fs with
      | .ok fs2 => (none, fs2, [thumbFilename], [errLine], [(t, thumbFilename)])
      | .error e => (some e, fs, [], [errLine], [(t, thumbFilename)])
    | _ => (some ⟨"TypeError", "Invalid URL"⟩, fs, [], [], [])
  else (none, fs, [], [], [])

/-- The best-variant download half of the video step (lines 146-155),
continuing from the thumbnail half's outputs. -/
def vidStep (net : Net) (archiveDir : FsPath) (m : Json) (mediaIndex : Nat) (fs2 : FS)
    (files errs : List String) (jobs : List (String × String)) :
    Option JsError × FS × List String × List String × List (String × String) :=
  match jsGet m "variants" with
  | some (.arr (v0 :: _)) =>
    match jsGet v0 "url" with
    | some (.str u) =>
      let videoFilename := "media_" ++ natStr mediaIndex ++ ".mp4"
      let errLine := "Downloading video: " ++ videoFilename
      match downloadFile net u (archiveDir ++ [videoFilename]) fs2 with
      | .ok fs3 => (none, fs3, files ++ [videoFilename], errs ++ [errLine],
          jobs ++ [(u, videoFilename)])
      | .error e => (some e, fs2, files, errs ++ [errLine], jobs ++ [(u, videoFilename)])
    | _ => (some ⟨"TypeError", "Invalid URL"⟩, fs2, files, errs, jobs)
  | _ => (none, fs2, files, errs, jobs)

/-- The full video/animated_gif step of the download loop (lines
134-157): the thumbnail half, then — unless it threw — the best-variant
half. -/
def videoStep (net : Net) (archiveDir : FsPath) (m : Json) (mediaIndex : Nat) (fs : FS) :
    Option JsError × FS × List String × List String × List (String × String) :=
  match thumbStep net archiveDir m mediaIndex fs with
  | (some e, fs2, files, errs, jobs) => (some e, fs2, files, errs, jobs)
  | (none, fs2, files, errs, jobs) => vidStep net archiveDir m mediaIndex fs2 files errs jobs

/-- The media download loop of main (twitter-archive.js lines 121-159):
each photo downloads as `media_<n>.<ext>`, each video-like item via
`videoStep`; `mediaIndex` advances only for these kinds, and the first
failure aborts the loop with the partial file system kept. -/
def downloadMediaLoop (net : Net) (archiveDir : FsPath) :
    List Json → Nat → FS → LoopOut
  | [], _, fs => ⟨none, fs, [], [], []⟩
  | m :: rest, mediaIndex, fs =>
    if isTypeStr m "photo" then
      match jsGet m "url" with
      | some (.str u) =>
        let ext := getExtension u "jpg"
        let filename := "media_" ++ natStr mediaIndex ++ "." ++ ext
        let errLine := "Downloading photo: " ++ filename
        match downloadFile net u (archiveDir ++ [filename]) fs with
        | .ok fs2 =>
          let o := downloadMediaLoop net archiveDir rest (mediaIndex + 1) fs2
          ⟨o.error, o.fs, filename :: o.mediaFiles, errLine :: o.errLines, (u, filename) :: o.jobs⟩
        | .error e => ⟨some e, fs, [], [errLine], [(u, filename)]⟩
      | _ => ⟨some ⟨"TypeError", "Invalid URL"⟩, fs, [], [], []⟩
    else if isTypeStr m "video" || isTypeStr m "animated_gif" then
      match videoStep net archiveDir m mediaIndex fs with
      | (some e, fs2, _, errs, jobs) => ⟨some e, fs2, [], errs, jobs⟩
      | (none, fs2, files, errs, jobs) =>
        let o := downloadMediaLoop net archiveDir rest (mediaIndex + 1) fs2
        ⟨o.error, o.fs, files ++ o.mediaFiles, errs ++ o.errLines, jobs ++ o.jobs⟩
    else downloadMediaLoop net archiveDir rest mediaIndex fs

/-- The metadata record main builds (lines 162-170).  `user` and
`text_preview` come from optional chains and are omitted when undefined
(a non-string `text` would make `.slice` throw and is outside the defined
fragment). -/
def buildMetadata (tweetId tweetUrl now archiveDirStr : String)
    (mediaFiles : List String) (formatted : Json) : Json :=
  Json.obj ([("tweet_id", Json.str tweetId),
    ("source_url", Json.str tweetUrl),
    ("archived_at", Json.str now),
    ("archive_dir", Json.str archiveDirStr),
    ("media_files", Json.arr (mediaFiles.map Json.str))]
    ++ optField "user" (jsGet2 formatted "user" "screen_name")
    ++ (match jsGet formatted "text" with
        | some (.str t) => [("text_preview", Json.str ⟨t.data.take 100⟩)]
        | _ => []))

/-- The already-archived summary main prints on the short-circuit path
(lines 89-96). -/
def cachedSummary (tweetId defaultDirStr : String) (md : Option Json) : Json :=
  Json.obj ([("success", Json.bool true), ("cached", Json.bool true),
    ("tweet_id", Json.str tweetId),
    ("archive_dir", jsOr (md.bind (fun m => jsGet m "archive_dir")) (Json.str defaultDirStr))]
    ++ optField "archived_at" (md.bind (fun m => jsGet m "archived_at"))
    ++ [("media_files", jsOr (md.bind (fun m => jsGet m "media_files")) (Json.arr []))])

/-- The fresh-archive summary main prints on success (lines 180-187). -/
def freshSummary (tweetId archiveDirStr archivedAt : String) (mediaFiles : List String) : Json :=
  Json.obj [("success", Json.bool true), ("cached", Json.bool false),
    ("tweet_id", Json.str tweetId), ("archive_dir", Json.str archiveDirStr),
    ("archived_at", Json.str archivedAt),
    ("media_files", Json.arr (mediaFiles.map Json.str))]

/-- Result of one CLI run: exit status, final file system, stdout lines,
stderr lines, and the performed network requests in order. -/
structure CliResult where
  exitCode : Nat
  fs : FS
  out : List String
  err : List String
  events : List NetEvent

/-- Main's archive body (lines 107-187) over an already-resolved output
directory: format, write the raw and formatted documents, run the
download loop, and — only after every download succeeded — write the
metadata marker (plus a copy in the output directory when
`copyMetadata`, the custom-directory case, is set). -/
def archiveInto (env : Env) (net : Net) (fs : FS) (tweetId : String)
    (archiveDir : FsPath) (copyMetadata : Bool) (tweet : Json) (ev0 : List NetEvent) : CliResult :=
  let formatted := formatTweet tweet
  let fs1 := FS.write fs (archiveDir ++ ["tweet.json"]) (strPretty tweet)
  let fs2 := FS.write fs1 (archiveDir ++ ["tweet_formatted.json"]) (strPretty formatted)
  let o := downloadMediaLoop net archiveDir (formatTweetMedia tweet) 0 fs2
  match o.error with
  | some e =>
    ⟨1, o.fs, [], o.errLines ++ ["Error: " ++ e.message],
      ev0 ++ o.jobs.map (fun jb => NetEvent.download jb.1)⟩
  | none =>
    let tweetUrl := "https://twitter.com/i/status/" ++ tweetId
    let metadata := buildMetadata tweetId tweetUrl env.now (pathToString archiveDir)
      o.mediaFiles formatted
    let fs3 := saveArchiveMetadata env.home o.fs tweetId metadata
    let fs4 := if copyMetadata
      then FS.write fs3 (archiveDir ++ ["metadata.json"]) (strPretty metadata)
      else fs3
    ⟨0, fs4, [strValC (freshSummary tweetId (pathToString archiveDir) env.now o.mediaFiles)],
      o.errLines, ev0 ++ o.jobs.map (fun jb => NetEvent.download jb.1)⟩

/-- Main's archive body once the tweet document is in hand (lines
107-187): resolve the output directory from the `--dir` option — the
default per-ID archive directory when it is absent or empty — and run
`archiveInto`, copying the metadata record into the output directory
exactly when a nonempty custom directory was given. -/
def continueArchive (env : Env) (net : Net) (fs : FS) (tweetId : String)
    (customDir : Option String) (tweet : Json) (ev0 : List NetEvent) : CliResult :=
  match customDir with
  | some cd =>
    if cd = "" then archiveInto env net fs tweetId (getArchiveDir env.home tweetId) false tweet ev0
    else archiveInto env net fs tweetId (resolvePath env.cwd cd) true tweet ev0
  | none => archiveInto env net fs tweetId (getArchiveDir env.home tweetId) false tweet ev0

/-- Main's fetch-or-cache step (lines 101-105): a falsy cached document
(or `--force`) triggers the network fetch, whose result is cached. -/
def runFetchAndArchive (env : Env) (net : Net) (fs : FS) (tweetId : String)
    (customDir : Option String) (force : Bool) : CliResult :=
  let cached := getCachedTweet env.home fs tweetId
  if !(jsTruthy cached) || force then
    match fetchTweetFromApi net tweetId with
    | .error e => ⟨1, fs, [], ["Error: " ++ e.message], [NetEvent.apiFetch tweetId]⟩
    | .ok tweet =>
      continueArchive env net (cacheTweet env.home fs tweetId tweet) tweetId customDir tweet
        [NetEvent.apiFetch tweetId]
  else continueArchive env net fs tweetId customDir (cached.getD Json.null) []

/-- Main's try-block (lines 82-187) together with its catch (lines
188-191): extract the ID, short-circuit on the idempotence check, or run
the archive; any thrown error prints `Error: <message>` to stderr and
exits 1. -/
def runMain (env : Env) (net : Net) (fs : FS) (input : String)
    (customDir : Option String) (force : Bool) : CliResult :=
  match extractTweetId input with
  | .error e => ⟨1, fs, [], ["Error: " ++ e.message], []⟩
  | .ok tweetId =>
    if !force && isArchived env.home fs tweetId then
      ⟨0, fs, [strValC (cachedSummary tweetId (pathToString (getArchiveDir env.home tweetId))
          (getArchiveMetadata env.home fs tweetId))], [], []⟩
    else runFetchAndArchive env net fs tweetId customDir force

/-- The twitter-archive.js CLI entry point: empty or `--help` invocations
print the usage text to stdout; a missing input prints an error to stderr
and the usage text to stdout; otherwise the parsed arguments drive the
archive operation. -/
def runCli (env : Env) (net : Net) (argv : List String) (fs : FS) : CliResult :=
  if argv.isEmpty || argv.contains "--help" then
    ⟨if argv.contains "--help" then 0 else 1, fs, [usageText], [], []⟩
  else
    match parseArgs argv none none false with
    | (none, _, _) => ⟨1, fs, [usageText], ["Error: Tweet URL or ID required"], []⟩
    | (some input, customDir, force) => runMain env net fs input customDir force

/-- Well-formedness of one formatted media item, the defined fragment the
claims speak about: a photo with a string URL, or a video-like item whose
thumbnail is either falsy or a nonempty string and whose variant list is
a nonempty array with a string URL in front. -/
def mediaWF (m : Json) : Prop :=
  (isTypeStr m "photo" = true ∧ ∃ u, jsGet m "url" = some (.str u))
  ∨ (isTypeStr m "photo" = false
      ∧ (isTypeStr m "video" = true ∨ isTypeStr m "animated_gif" = true)
      ∧ (jsTruthy (jsGet m "thumbnail") = false
          ∨ ∃ t, jsGet m "thumbnail" = some (.str t) ∧ t ≠ "")
      ∧ ∃ v0 vs u, jsGet m "variants" = some (.arr (v0 :: vs))
          ∧ jsGet v0 "url" = some (.str u))

/-- Modelled from the claim's words (C4): the n-th media item of the
formatted list yields `media_<n>.<ext>` for a photo, and
`media_<n>_thumb.<ext>` (when a thumbnail is present) plus
`media_<n>.mp4` for a video-like item, in document order.  Items of any
other kind (absent from formatted media lists) contribute nothing. -/
def specMediaNames : List Json → Nat → List String
  | [], _ => []
  | m :: rest, n =>
    if isTypeStr m "photo" then
      (match jsGet m "url" with
       | some (.str u) => ["media_" ++ natStr n ++ "." ++ getExtension u "jpg"]
       | _ => [])
      ++ specMediaNames rest (n + 1)
    else if isTypeStr m "video" || isTypeStr m "animated_gif" then
      (if jsTruthy (jsGet m "thumbnail") then
        match jsGet m "thumbnail" with
        | some (.str t) => ["media_" ++ natStr n ++ "_thumb." ++ getExtension t "jpg"]
        | _ => []
       else [])
      ++ ["media_" ++ natStr n ++ ".mp4"]
      ++ specMediaNames rest (n + 1)
    else specMediaNames rest n

/-- The download plan implied by the loop: the (url, filename) pair of
every download, in order (pure projection of `downloadMediaLoop`). -/
def specMediaJobs : List Json → Nat → List (String × String)
  | [], _ => []
  | m :: rest, n =>
    if isTypeStr m "photo" then
      (match jsGet m "url" with
       | some (.str u) => [(u, "media_" ++ natStr n ++ "." ++ getExtension u "jpg")]
       | _ => [])
      ++ specMediaJobs rest (n + 1)
    else if isTypeStr m "video" || isTypeStr m "animated_gif" then
      (if jsTruthy (jsGet m "thumbnail") then
        match jsGet m "thumbnail" with
        | some (.str t) => [(t, "media_" ++ natStr n ++ "_thumb." ++ getExtension t "jpg")]
        | _ => []
       else [])
      ++ (match jsGet m "variants" with
          | some (.arr (v0 :: _)) =>
            match jsGet v0 "url" with
            | some (.str u) => [(u, "media_" ++ natStr n ++ ".mp4")]
            | _ => []
          | _ => [])
      ++ specMediaJobs rest (n + 1)
    else specMediaJobs rest n

/-- Every download of the loop succeeds under this oracle. -/
def allDownloadsOk (net : Net) : Prop := ∀ u, (net.download u).ok = true

/-- A concrete [photo, video, photo] formatted media list, the shape the
deterministic-naming scenario describes. -/
def photoVideoPhoto : List Json :=
  [Json.obj [("type", Json.str "photo"), ("url", Json.str "https://h/a.jpg")],
   Json.obj [("type", Json.str "video"), ("thumbnail", Json.str "https://h/t.png"),
     ("variants", Json.arr [Json.obj [("url", Json.str "https://h/v.mp4"),
       ("bitrate", Json.num 1200000)]])],
   Json.obj [("type", Json.str "photo"), ("url", Json.str "https://h/c.gif")]]

/-- The raw variant list `media.video_info?.variants || []` of one
mediaDetails entry. -/
def rawVariants (m : Json) : List Json :=
  match jsGet2 m "video_info" "variants" with
  | some (.arr vs) => vs
  | _ => []

/-- A 360p MP4 variant at bitrate 500000. -/
def sampleVariant360 : Json :=
  Json.obj [("content_type", Json.str "video/mp4"), ("url", Json.str "https://h/360.mp4"),
    ("bitrate", Json.num 500000)]

/-- A 720p MP4 variant at bitrate 1200000. -/
def sampleVariant720 : Json :=
  Json.obj [("content_type", Json.str "video/mp4"), ("url", Json.str "https://h/720.mp4"),
    ("bitrate", Json.num 1200000)]

/-- A raw video mediaDetails entry with the variant set
{360p@500kbps, 720p@1200kbps}. -/
def sampleVideoItem : Json :=
  Json.obj [("type", Json.str "video"), ("media_url_https", Json.str "https://h/thumb.jpg"),
    ("video_info", Json.obj [("variants", Json.arr [sampleVariant360, sampleVariant720])])]

/-- A tweet document with one photo media item. -/
def sampleTweet : Json :=
  Json.obj [("id_str", Json.str "5"),
    ("mediaDetails", Json.arr [Json.obj [("type", Json.str "photo"),
      ("media_url_https", Json.str "https://h/a.jpg")]])]

/-- A fixed environment: home `h`, working directory `w`, clock `T`. -/
def sampleEnv : Env := ⟨["h"], ["w"], "T"⟩

/-- A network whose tweet lookup succeeds with `sampleTweet` but whose
media downloads all fail with status 500. -/
def sampleFailNet : Net := ⟨⟨200, "OK", strPretty sampleTweet⟩, fun _ => ⟨500, "E", ""⟩⟩

/-- The archive run of `sampleTweet` under the failing download
network. -/
def sampleFailRun : CliResult := runMain sampleEnv sampleFailNet [] "5" none false

/-- A file system already holding a metadata marker for ID 5, as a
previous successful archive run leaves it. -/
def sampleStaleFs : FS :=
  [(metadataPath ["h"] "5", strPretty (Json.obj [("archived_at", Json.str "T0")]))]

/-- The forced re-archive of the already-archived ID 5 under the
failing download network. -/
def sampleForcedRun : CliResult := runMain sampleEnv sampleFailNet sampleStaleFs "5" none true

/-- A network whose tweet lookup succeeds with the media-free document
{"id_str": "7"} and whose downloads succeed. -/
def sampleOkNet : Net :=
  ⟨⟨200, "OK", strPretty (Json.obj [("id_str", Json.str "7")])⟩, fun _ => ⟨200, "OK", "F"⟩⟩

/-- The archive run of ID 7 with the custom destination `out`. -/
def sampleDirRun : CliResult := runMain sampleEnv sampleOkNet [] "7" (some "out") false

lemma FS.read_write_self (fs : FS) (p : FsPath) (c : String) :
    FS.read (FS.write fs p c) p = some c := by
  simp [FS.read, FS.write, List.find?]

lemma FS.read_write_ne (fs : FS) (p q : FsPath) (c : String) (h : p ≠ q) :
    FS.read (FS.write fs p c) q = FS.read fs q := by
  simp [FS.read, FS.write, List.find?, h]

lemma append_singleton_ne {α : Type} (p q : List α) (a b : α) (h : a ≠ b) :
    p ++ [a] ≠ q ++ [b] := by
  intro he
  have h1 : (p ++ [a]).getLast? = (q ++ [b]).getLast? := by rw [he]
  rw [List.getLast?_concat, List.getLast?_concat] at h1
  exact h (Option.some.injEq a b ▸ h1)

lemma media_prefix_ne_metadata (s : String) : "media_" ++ s ≠ "metadata.json" := by
  intro h
  have h2 := congrArg String.data h
  rw [String.data_append] at h2
  simp at h2

lemma tweet_json_ne_metadata : "tweet.json" ≠ ("metadata.json" : String) := by decide

lemma tweet_formatted_ne_metadata : "tweet_formatted.json" ≠ ("metadata.json" : String) := by
  decide

lemma tweetCachePath_ne_metadataPath (home : FsPath) (id1 id2 : String) :
    tweetCachePath home id1 ≠ metadataPath home id2 := by
  intro h
  have h2 := congrArg List.length h
  simp [tweetCachePath, metadataPath, getCacheDir, getArchiveDir] at h2

lemma digits_ne_lit (id lit : String) (h : id.data.all Char.isDigit = true)
    (hlit : lit.data.all Char.isDigit = false) : id ≠ lit := by
  intro he
  rw [he] at h
  rw [h] at hlit
  exact absurd hlit (by decide)

lemma digits_not_dash (id : String) (hne : id.data ≠ [])
    (h : id.data.all Char.isDigit = true) : strStartsWith id "-" = false := by
  cases hd : id.data with
  | nil => exact absurd hd hne
  | cons c t =>
    rw [hd, List.all_cons, Bool.and_eq_true] at h
    have hc : ('-' == c) = false := by
      rw [beq_eq_false_iff_ne]
      intro he
      rw [← he] at h
      exact Bool.false_ne_true ((by decide : ('-' : Char).isDigit = false) ▸ h.1)
    simp [strStartsWith, hd, List.isPrefixOf, hc]

/-- C1: for every tweet ID whose metadata marker file exists
(`isArchived` true) and a non-forced invocation, the archive command
returns the existing metadata record immediately: exit code 0, stdout
carrying exactly the cached summary built from `getArchiveMetadata`, no
network events at all, and the file system left unchanged. -/
theorem archive_idempotent_short_circuit (env : Env) (net : Net) (fs : FS) (id : String)
    (hne : id.data ≠ []) (hdig : id.data.all Char.isDigit = true)
    (harch : isArchived env.home fs id = true) :
    runCli env net [id] fs
      = ⟨0, fs, [strValC (cachedSummary id (pathToString (getArchiveDir env.home id))
          (getArchiveMetadata env.home fs id))], [], []⟩ := by
  have hh : id ≠ "--help" := digits_ne_lit id _ hdig (by decide)
  have hd : id ≠ "--dir" := digits_ne_lit id _ hdig (by decide)
  have hf : id ≠ "--force" := digits_ne_lit id _ hdig (by decide)
  have hdash := digits_not_dash id hne hdig
  have hh2 : ¬("--help" = id) := fun he => hh he.symm
  have hcont : ([id].contains "--help") = false := by
    simp [List.contains, hh2]
  have hparse : parseArgs [id] none none false = (some id, none, false) := by
    simp [parseArgs, hd, hf, hdash]
  have hextract : extractTweetId id = .ok id := by
    simp [extractTweetId, hne, hdig]
  simp [runCli, hcont, hparse, runMain, hextract, harch, hh2]

/-- Witness for C1: a concrete archived state short-circuits. -/
theorem archive_idempotent_short_circuit_witness :
    ("123" : String).data ≠ [] ∧ ("123" : String).data.all Char.isDigit = true
    ∧ isArchived ["h"] [(metadataPath ["h"] "123", "x")] "123" = true
    ∧ runCli ⟨["h"], ["w"], "T"⟩ ⟨⟨200, "OK", "b"⟩, fun _ => ⟨200, "OK", "b"⟩⟩ ["123"]
        [(metadataPath ["h"] "123", "x")]
      = ⟨0, [(metadataPath ["h"] "123", "x")],
          [strValC (cachedSummary "123" (pathToString (getArchiveDir ["h"] "123"))
            (getArchiveMetadata ["h"] [(metadataPath ["h"] "123", "x")] "123"))], [], []⟩ :=
  ⟨by decide, by decide, by decide,
    archive_idempotent_short_circuit ⟨["h"], ["w"], "T"⟩ _ _ "123"
      (by decide) (by decide) (by decide)⟩

/-- C8: `get` on an empty cache returns the not-found signal without
raising, and `put` followed by `get` returns the stored document exactly
(the serialize-then-parse round trip is the identity on the documents of
the model). -/
theorem cache_put_get_roundtrip (home : FsPath) (id : String) (doc : Json) (fs : FS) :
    getCachedTweet home [] id = none
    ∧ getCachedTweet home (cacheTweet home fs id doc) id = some doc := by
  constructor
  · rfl
  · simp [getCachedTweet, cacheTweet, FS.read_write_self, jsParse_strPretty]

/-- C9: a cache file whose content `JSON.parse` rejects yields the same
not-found signal as an absent file; the parse exception is caught inside
the cache layer (the function is total into `Option`). -/
theorem cache_corrupt_is_miss (home : FsPath) (fs : FS) (id : String) (content : String)
    (e : JsError) (hbad : jsParse content = .error e) :
    getCachedTweet home (FS.write fs (tweetCachePath home id) content) id = none
    ∧ getCachedTweet home [] id = none := by
  constructor
  · simp [getCachedTweet, FS.read_write_self, hbad]
  · rfl

/-- Witness for C9 with the corrupt content `not json`. -/
theorem cache_corrupt_is_miss_witness :
    jsParse "not json" = .error jsonSyntaxError
    ∧ getCachedTweet ["h"] (FS.write [] (tweetCachePath ["h"] "1") "not json") "1" = none
    ∧ getCachedTweet ["h"] [] "1" = none :=
  ⟨rfl, (cache_corrupt_is_miss ["h"] [] "1" "not json" jsonSyntaxError rfl).1,
    (cache_corrupt_is_miss ["h"] [] "1" "not json" jsonSyntaxError rfl).2⟩

/-- C6 counterexample: the lookup failure for the nonexistent ID
`999999999` (status 404) and the 500 failure for ID `123` produce errors
of the very same kind — both are plain `Error` objects with `name =
"Error"` — so they are distinguishable only by their message text,
refuting distinguishability by type/kind. -/
theorem fetch_notfound_same_kind_as_500 :
    fetchTweetFromApi ⟨⟨404, "Not Found", ""⟩, fun _ => ⟨200, "OK", ""⟩⟩ "999999999"
      = .error ⟨"Error", "Tweet not found: 999999999"⟩
    ∧ fetchTweetFromApi ⟨⟨500, "Internal Server Error", ""⟩, fun _ => ⟨200, "OK", ""⟩⟩ "123"
      = .error ⟨"Error", "Failed to fetch tweet: 500 Internal Server Error"⟩
    ∧ (JsError.mk "Error" "Tweet not found: 999999999").name
      = (JsError.mk "Error" "Failed to fetch tweet: 500 Internal Server Error").name :=
  ⟨rfl, rfl, rfl⟩

/-- C6 amended: a not-found response yields the message `Tweet not
found: <id>`, any other non-success status yields `Failed to fetch
tweet: <status> <statusText>`; the two are distinguishable by message
text, both carried by the same generic `Error` kind. -/
theorem fetch_notfound_message_distinct (net : Net) (id : String)
    (hfail : net.tweetResponse.ok = false) :
    (net.tweetResponse.status = 404 →
      fetchTweetFromApi net id = .error ⟨"Error", "Tweet not found: " ++ id⟩)
    ∧ (net.tweetResponse.status ≠ 404 →
      fetchTweetFromApi net id = .error ⟨"Error", "Failed to fetch tweet: "
        ++ natStr net.tweetResponse.status ++ " " ++ net.tweetResponse.statusText⟩) := by
  constructor
  · intro h404
    simp [fetchTweetFromApi, hfail, h404]
  · intro hnot
    simp [fetchTweetFromApi, hfail, hnot]

/-- Witness for the amended C6 on concrete 404 and 500 responses. -/
theorem fetch_notfound_message_distinct_witness :
    (HttpResponse.ok ⟨404, "Not Found", ""⟩ = false ∧ (404 : Nat) = 404
      ∧ fetchTweetFromApi ⟨⟨404, "Not Found", ""⟩, fun _ => ⟨200, "OK", ""⟩⟩ "999999999"
        = .error ⟨"Error", "Tweet not found: 999999999"⟩)
    ∧ (HttpResponse.ok ⟨500, "Oops", ""⟩ = false ∧ (500 : Nat) ≠ 404
      ∧ fetchTweetFromApi ⟨⟨500, "Oops", ""⟩, fun _ => ⟨200, "OK", ""⟩⟩ "123"
        = .error ⟨"Error", "Failed to fetch tweet: " ++ natStr 500 ++ " " ++ "Oops"⟩) :=
  ⟨⟨by decide, by decide,
    (fetch_notfound_message_distinct ⟨⟨404, "Not Found", ""⟩, fun _ => ⟨200, "OK", ""⟩⟩
      "999999999" (by decide)).1 (by decide)⟩,
   ⟨by decide, by decide,
    (fetch_notfound_message_distinct ⟨⟨500, "Oops", ""⟩, fun _ => ⟨200, "OK", ""⟩⟩
      "123" (by decide)).2 (by decide)⟩⟩

/-- C7 counterexample: for the non-empty unparsable body `not json`, the
fetch surfaces the raw `JSON.parse` SyntaxError itself — the identical
error value — rather than a distinct wrapped error. -/
theorem fetch_unparsable_propagates_raw :
    jsParse "not json" = .error jsonSyntaxError
    ∧ fetchTweetFromApi ⟨⟨200, "OK", "not json"⟩, fun _ => ⟨200, "OK", ""⟩⟩ "123"
      = .error jsonSyntaxError
    ∧ ("not json" : String) ≠ "" :=
  ⟨rfl, rfl, by decide⟩

/-- C7 amended: an empty body is surfaced as the distinct error `Empty
response for tweet: <id>`; a non-empty body rejected by `JSON.parse`
propagates the parse exception unchanged. -/
theorem fetch_empty_distinct_unparsable_raw (net : Net) (id : String)
    (hok : net.tweetResponse.ok = true) :
    (net.tweetResponse.body = "" →
      fetchTweetFromApi net id = .error ⟨"Error", "Empty response for tweet: " ++ id⟩)
    ∧ (∀ e, net.tweetResponse.body ≠ "" → jsParse net.tweetResponse.body = .error e →
      fetchTweetFromApi net id = .error e) := by
  constructor
  · intro hb
    simp [fetchTweetFromApi, hok, hb]
  · intro e hb hparse
    simp [fetchTweetFromApi, hok, hb, hparse]

/-- Witness for the amended C7 on an empty and an unparsable body. -/
theorem fetch_empty_distinct_unparsable_raw_witness :
    (HttpResponse.ok ⟨200, "OK", ""⟩ = true
      ∧ fetchTweetFromApi ⟨⟨200, "OK", ""⟩, fun _ => ⟨200, "OK", ""⟩⟩ "7"
        = .error ⟨"Error", "Empty response for tweet: 7"⟩)
    ∧ (HttpResponse.ok ⟨200, "OK", "x"⟩ = true ∧ ("x" : String) ≠ ""
      ∧ fetchTweetFromApi ⟨⟨200, "OK", "x"⟩, fun _ => ⟨200, "OK", ""⟩⟩ "7"
        = .error jsonSyntaxError) :=
  ⟨⟨by decide,
    (fetch_empty_distinct_unparsable_raw ⟨⟨200, "OK", ""⟩, fun _ => ⟨200, "OK", ""⟩⟩ "7"
      (by decide)).1 rfl⟩,
   ⟨by decide, by decide,
    (fetch_empty_distinct_unparsable_raw ⟨⟨200, "OK", "x"⟩, fun _ => ⟨200, "OK", ""⟩⟩ "7"
      (by decide)).2 jsonSyntaxError (by decide) rfl⟩⟩

lemma mem_insertDescBy (key : Json → Int) (x a : Json) (l : List Json) :
    a ∈ insertDescBy key x l ↔ a = x ∨ a ∈ l := by
  induction l with
  | nil => simp [insertDescBy]
  | cons y ys ih =>
    simp only [insertDescBy]
    split
    · simp only [List.mem_cons, ih]
      tauto
    · simp only [List.mem_cons]

lemma mem_sortDescBy (key : Json → Int) (a : Json) (l : List Json) :
    a ∈ sortDescBy key l ↔ a ∈ l := by
  induction l with
  | nil => simp [sortDescBy]
  | cons x xs ih => simp [sortDescBy, mem_insertDescBy, ih]

lemma pairwise_insertDescBy (key : Json → Int) (x : Json) (l : List Json)
    (h : l.Pairwise (fun a b => key b ≤ key a)) :
    (insertDescBy key x l).Pairwise (fun a b => key b ≤ key a) := by
  induction l with
  | nil => simp [insertDescBy]
  | cons y ys ih =>
    rw [List.pairwise_cons] at h
    simp only [insertDescBy]
    split
    · next hlt =>
      rw [List.pairwise_cons]
      refine ⟨?_, ih h.2⟩
      intro b hb
      rcases (mem_insertDescBy key x b ys).mp hb with rfl | hb2
      · omega
      · exact h.1 b hb2
    · next hge =>
      rw [List.pairwise_cons]
      refine ⟨?_, List.pairwise_cons.mpr h⟩
      intro b hb
      rcases List.mem_cons.mp hb with rfl | hb2
      · omega
      · have := h.1 b hb2
        omega

lemma pairwise_sortDescBy (key : Json → Int) (l : List Json) :
    (sortDescBy key l).Pairwise (fun a b => key b ≤ key a) := by
  induction l with
  | nil => simp [sortDescBy]
  | cons x xs ih => exact pairwise_insertDescBy key x _ ih

/-- The head of the descending sort is a maximal element. -/
lemma sortDescBy_head_max (key : Json → Int) (l : List Json) (x : Json) (ys : List Json)
    (h : sortDescBy key l = x :: ys) : x ∈ l ∧ ∀ v ∈ l, key v ≤ key x := by
  have hmem : x ∈ l := (mem_sortDescBy key x l).mp (h ▸ List.mem_cons_self x ys)
  refine ⟨hmem, ?_⟩
  intro v hv
  have hv2 : v ∈ x :: ys := h ▸ (mem_sortDescBy key v l).mpr hv
  rcases List.mem_cons.mp hv2 with rfl | hv3
  · exact le_refl _
  · have hp := pairwise_sortDescBy key l
    rw [h, List.pairwise_cons] at hp
    exact hp.1 v hv3

lemma downloadFile_ok (net : Net) (u : String) (p : FsPath) (fs : FS)
    (h : (net.download u).ok = true) :
    downloadFile net u p fs = .ok (FS.write fs p (net.download u).body) := by
  simp [downloadFile, h]

/-- Success characterization of the download loop: under well-formed
media items and an all-successful network, the loop finishes without
error, produces exactly the claim's position-indexed filenames, and
attempts exactly the implied download plan. -/
theorem downloadMediaLoop_success (net : Net) (dir : FsPath) :
    ∀ (ms : List Json) (i : Nat) (fs : FS), (∀ m ∈ ms, mediaWF m) → allDownloadsOk net →
    (downloadMediaLoop net dir ms i fs).error = none
    ∧ (downloadMediaLoop net dir ms i fs).mediaFiles = specMediaNames ms i
    ∧ (downloadMediaLoop net dir ms i fs).jobs = specMediaJobs ms i := by
  intro ms
  induction ms with
  | nil => intro i fs _ _; exact ⟨rfl, rfl, rfl⟩
  | cons m rest ih =>
    intro i fs hwf hok
    have hm := hwf m (List.mem_cons_self m rest)
    have hrest : ∀ x ∈ rest, mediaWF x := fun x hx => hwf x (List.mem_cons_of_mem m hx)
    rcases hm with ⟨hp, u, hu⟩ | ⟨hp, hv, hthumb, v0, vs, u, hvar, hvu⟩
    · -- photo
      have hdl := downloadFile_ok net u (dir ++ ["media_" ++ natStr i ++ "." ++ getExtension u "jpg"]) fs (hok u)
      have ihr := ih (i + 1) (FS.write fs (dir ++ ["media_" ++ natStr i ++ "." ++ getExtension u "jpg"]) (net.download u).body) hrest hok
      simp only [downloadMediaLoop, specMediaNames, specMediaJobs, hp, hu, hdl, if_true]
      simp [ihr.1, ihr.2.1, ihr.2.2]
    · -- video-like
      have hvb : (isTypeStr m "video" || isTypeStr m "animated_gif") = true := by
        rcases hv with h | h <;> simp [h]
      rcases hthumb with hth | ⟨t, hts, htne⟩
      · -- no thumbnail
        have hstep : videoStep net dir m i fs
            = (none, FS.write fs (dir ++ ["media_" ++ natStr i ++ ".mp4"]) (net.download u).body,
                ["media_" ++ natStr i ++ ".mp4"],
                ["Downloading video: " ++ ("media_" ++ natStr i ++ ".mp4")],
                [(u, "media_" ++ natStr i ++ ".mp4")]) := by
          simp [videoStep, thumbStep, vidStep, hth, hvar, hvu, downloadFile_ok net u _ fs (hok u)]
        have ihr := ih (i + 1) (FS.write fs (dir ++ ["media_" ++ natStr i ++ ".mp4"]) (net.download u).body) hrest hok
        simp only [downloadMediaLoop, specMediaNames, specMediaJobs, hp, hvb, hstep, hth, hvar, hvu,
          if_false, if_true, Bool.false_eq_true]
        simp [ihr.1, ihr.2.1, ihr.2.2]
      · -- thumbnail present (truthy string)
        have htruthy : jsTruthy (jsGet m "thumbnail") = true := by
          rw [hts]
          simp [jsTruthy, htne]
        have hstep : videoStep net dir m i fs
            = (none,
                FS.write (FS.write fs (dir ++ ["media_" ++ natStr i ++ "_thumb." ++ getExtension t "jpg"]) (net.download t).body)
                  (dir ++ ["media_" ++ natStr i ++ ".mp4"]) (net.download u).body,
                ["media_" ++ natStr i ++ "_thumb." ++ getExtension t "jpg", "media_" ++ natStr i ++ ".mp4"],
                ["Downloading thumbnail: " ++ ("media_" ++ natStr i ++ "_thumb." ++ getExtension t "jpg"),
                 "Downloading video: " ++ ("media_" ++ natStr i ++ ".mp4")],
                [(t, "media_" ++ natStr i ++ "_thumb." ++ getExtension t "jpg"),
                 (u, "media_" ++ natStr i ++ ".mp4")]) := by
          simp [videoStep, thumbStep, vidStep, htruthy, hts, jsTruthy, htne, hvar, hvu,
            downloadFile_ok net t _ fs (hok t),
            downloadFile_ok net u _ _ (hok u)]
        have ihr := ih (i + 1)
          (FS.write (FS.write fs (dir ++ ["media_" ++ natStr i ++ "_thumb." ++ getExtension t "jpg"])
              (net.download t).body)
            (dir ++ ["media_" ++ natStr i ++ ".mp4"]) (net.download u).body) hrest hok
        simp only [downloadMediaLoop, specMediaNames, specMediaJobs, hp, hvb, hstep, htruthy, hts,
          hvar, hvu, if_false, if_true, Bool.false_eq_true]
        simp [ihr.1, ihr.2.1, ihr.2.2, jsTruthy, htne]

/-- C4: media files are named purely by the item's position in the
formatted media list, in document order — the n-th item yields
`media_<n>.<ext>` when it is a photo, and `media_<n>_thumb.<ext>` (when
a thumbnail is present) plus `media_<n>.mp4` when it is video-like — and
the names depend on nothing else: a second successful run over any other
network oracle, destination directory and prior file system produces the
same filenames. -/
theorem media_naming_positional (net net' : Net) (dir dir' : FsPath) (ms : List Json)
    (fs fs' : FS) (hwf : ∀ m ∈ ms, mediaWF m) (hok : allDownloadsOk net)
    (hok' : allDownloadsOk net') :
    (downloadMediaLoop net dir ms 0 fs).mediaFiles = specMediaNames ms 0
    ∧ (downloadMediaLoop net' dir' ms 0 fs').mediaFiles
        = (downloadMediaLoop net dir ms 0 fs).mediaFiles := by
  have h1 := downloadMediaLoop_success net dir ms 0 fs hwf hok
  have h2 := downloadMediaLoop_success net' dir' ms 0 fs' hwf hok'
  exact ⟨h1.2.1, h2.2.1.trans h1.2.1.symm⟩

/-- Witness for C4: the [photo, video, photo] list yields `media_0.jpg`,
`media_1_thumb.png` + `media_1.mp4`, `media_2.gif`, identically under
two different networks, directories and starting file systems. -/
theorem media_naming_positional_witness :
    (∀ m ∈ photoVideoPhoto, mediaWF m)
    ∧ allDownloadsOk ⟨⟨200, "OK", ""⟩, fun _ => ⟨200, "OK", "B1"⟩⟩
    ∧ allDownloadsOk ⟨⟨200, "OK", ""⟩, fun _ => ⟨200, "OK", "B2"⟩⟩
    ∧ specMediaNames photoVideoPhoto 0
        = ["media_0.jpg", "media_1_thumb.png", "media_1.mp4", "media_2.gif"]
    ∧ (downloadMediaLoop ⟨⟨200, "OK", ""⟩, fun _ => ⟨200, "OK", "B1"⟩⟩ ["d"]
        photoVideoPhoto 0 []).mediaFiles = specMediaNames photoVideoPhoto 0
    ∧ (downloadMediaLoop ⟨⟨200, "OK", ""⟩, fun _ => ⟨200, "OK", "B2"⟩⟩ ["e"]
        photoVideoPhoto 0 [(["f"], "x")]).mediaFiles
      = (downloadMediaLoop ⟨⟨200, "OK", ""⟩, fun _ => ⟨200, "OK", "B1"⟩⟩ ["d"]
        photoVideoPhoto 0 []).mediaFiles := by
  have hwf : ∀ m ∈ photoVideoPhoto, mediaWF m := by
    intro m hm
    simp only [photoVideoPhoto, List.mem_cons, List.not_mem_nil, or_false] at hm
    rcases hm with rfl | rfl | rfl
    · exact Or.inl ⟨rfl, "https://h/a.jpg", rfl⟩
    · exact Or.inr ⟨rfl, Or.inl rfl, Or.inr ⟨"https://h/t.png", rfl, by decide⟩,
        Json.obj [("url", Json.str "https://h/v.mp4"), ("bitrate", Json.num 1200000)], [],
        "https://h/v.mp4", rfl, rfl⟩
    · exact Or.inl ⟨rfl, "https://h/c.gif", rfl⟩
  have hok1 : allDownloadsOk ⟨⟨200, "OK", ""⟩, fun _ => ⟨200, "OK", "B1"⟩⟩ := fun _ => rfl
  have hok2 : allDownloadsOk ⟨⟨200, "OK", ""⟩, fun _ => ⟨200, "OK", "B2"⟩⟩ := fun _ => rfl
  have h := media_naming_positional ⟨⟨200, "OK", ""⟩, fun _ => ⟨200, "OK", "B1"⟩⟩
    ⟨⟨200, "OK", ""⟩, fun _ => ⟨200, "OK", "B2"⟩⟩ ["d"] ["e"] photoVideoPhoto
    [] [(["f"], "x")] hwf hok1 hok2
  exact ⟨hwf, hok1, hok2, rfl, h.1, h.2⟩

lemma lookupField_append_last (l : List (String × Json)) (k : String) (v : Json) :
    lookupField (l ++ [(k, v)]) k = some v := by
  induction l with
  | nil => simp [lookupField]
  | cons p rest ih => simp [lookupField, ih]

lemma jsGet_pickVariant_url (v : Json) (u : String) (h : jsGet v "url" = some (.str u)) :
    jsGet (pickVariant v) "url" = some (.str u) := by
  cases hb : jsGet v "bitrate" with
  | none =>
    simp only [pickVariant, h, hb, optField]
    simp [jsGet, lookupField]
  | some b =>
    simp only [pickVariant, h, hb, optField]
    simp [jsGet, lookupField]

/-- C3: for a video/animated_gif mediaDetails entry whose filtered MP4
list is nonempty, the head variant `v0` the formatted item puts in front
— the one the loop downloads as `media_<n>.mp4` — is one of the entry's
MP4 variants and has maximal `bitrate || 0` among them: the formatted
item's variant list starts with `v0`'s projection, and the video half of
the download step requests exactly `v0`'s URL under the name
`media_<n>.mp4`. -/
theorem best_bitrate_mp4_selected (mr : Json)
    (hv : isTypeStr mr "video" = true ∨ isTypeStr mr "animated_gif" = true)
    (hp : isTypeStr mr "photo" = false)
    (v0 : Json) (rest : List Json) (hsel : mediaMp4s mr = v0 :: rest)
    (u : String) (hu : jsGet v0 "url" = some (.str u))
    (net : Net) (dir : FsPath) (i : Nat) (fs : FS) :
    (v0 ∈ (rawVariants mr).filter isMp4
      ∧ ∀ v ∈ (rawVariants mr).filter isMp4, bitrateKey v ≤ bitrateKey v0)
    ∧ ∃ fm, formatMediaItem mr = [fm]
      ∧ jsGet fm "variants" = some (Json.arr (pickVariant v0 :: rest.map pickVariant))
      ∧ (vidStep net dir fm i fs [] [] []).2.2.2.2
          = [(u, "media_" ++ natStr i ++ ".mp4")] := by
  have hvb : (isTypeStr mr "video" || isTypeStr mr "animated_gif") = true := by
    rcases hv with h | h <;> simp [h]
  have hsort : sortDescBy bitrateKey ((rawVariants mr).filter isMp4) = v0 :: rest := hsel
  have hmax := sortDescBy_head_max bitrateKey ((rawVariants mr).filter isMp4) v0 rest hsort
  refine ⟨hmax, Json.obj (optField "type" (jsGet mr "type")
      ++ optField "thumbnail" (jsGet mr "media_url_https")
      ++ [("variants", Json.arr ((mediaMp4s mr).map pickVariant))]), ?_, ?_, ?_⟩
  · simp [formatMediaItem, hp, hvb]
  · simp only [jsGet]
    rw [lookupField_append_last, hsel]
    simp
  · have hfv : jsGet (Json.obj (optField "type" (jsGet mr "type")
        ++ optField "thumbnail" (jsGet mr "media_url_https")
        ++ [("variants", Json.arr ((mediaMp4s mr).map pickVariant))])) "variants"
        = some (Json.arr (pickVariant v0 :: rest.map pickVariant)) := by
      simp only [jsGet]
      rw [lookupField_append_last, hsel]
      simp
    have hpu := jsGet_pickVariant_url v0 u hu
    simp only [vidStep, hfv, hpu]
    cases downloadFile net u (dir ++ ["media_" ++ natStr i ++ ".mp4"]) fs <;> simp

/-- Witness for C3: on the variant set {360p@500kbps, 720p@1200kbps}
the 720p variant is selected and downloaded as `media_1.mp4`. -/
theorem best_bitrate_mp4_selected_witness :
    isTypeStr sampleVideoItem "video" = true
    ∧ isTypeStr sampleVideoItem "photo" = false
    ∧ mediaMp4s sampleVideoItem = [sampleVariant720, sampleVariant360]
    ∧ jsGet sampleVariant720 "url" = some (Json.str "https://h/720.mp4")
    ∧ ("media_" ++ natStr 1 ++ ".mp4" : String) = "media_1.mp4"
    ∧ ((sampleVariant720 ∈ (rawVariants sampleVideoItem).filter isMp4
        ∧ ∀ v ∈ (rawVariants sampleVideoItem).filter isMp4,
            bitrateKey v ≤ bitrateKey sampleVariant720)
      ∧ ∃ fm, formatMediaItem sampleVideoItem = [fm]
        ∧ jsGet fm "variants"
            = some (Json.arr (pickVariant sampleVariant720
                :: [sampleVariant360].map pickVariant))
        ∧ (vidStep ⟨⟨200, "OK", ""⟩, fun _ => ⟨200, "OK", "B"⟩⟩ ["d"] fm 1 [] [] [] []).2.2.2.2
            = [("https://h/720.mp4", "media_" ++ natStr 1 ++ ".mp4")]) :=
  ⟨rfl, rfl, rfl, rfl, rfl,
    best_bitrate_mp4_selected sampleVideoItem (Or.inl rfl) rfl
      sampleVariant720 [sampleVariant360] rfl "https://h/720.mp4" rfl
      ⟨⟨200, "OK", ""⟩, fun _ => ⟨200, "OK", "B"⟩⟩ ["d"] 1 []⟩

lemma media_ne_metadata2 (a b : String) : ("media_" ++ a) ++ b ≠ "metadata.json" := by
  intro h
  have h2 := congrArg String.data h
  simp [String.data_append] at h2

lemma media_ne_metadata3 (a b c : String) : (("media_" ++ a) ++ b) ++ c ≠ "metadata.json" := by
  intro h
  have h2 := congrArg String.data h
  simp [String.data_append] at h2

lemma downloadFile_read_metadata (net : Net) (u : String) (p : FsPath) (f : String)
    (fs fs2 : FS) (home : FsPath) (id : String)
    (h : downloadFile net u (p ++ [f]) fs = .ok fs2) (hf : f ≠ "metadata.json") :
    FS.read fs2 (metadataPath home id) = FS.read fs (metadataPath home id) := by
  by_cases hok : (net.download u).ok = true
  · simp only [downloadFile, if_pos hok] at h
    injection h with h
    rw [← h]
    exact FS.read_write_ne fs (p ++ [f]) (metadataPath home id) (net.download u).body
      (append_singleton_ne p (getArchiveDir home id) f "metadata.json" hf)
  · simp only [downloadFile, if_neg hok] at h
    exact absurd h (by simp)

lemma thumbStep_read_metadata (net : Net) (dir : FsPath) (m : Json) (i : Nat) (fs : FS)
    (home : FsPath) (id : String) :
    FS.read (thumbStep net dir m i fs).2.1 (metadataPath home id)
      = FS.read fs (metadataPath home id) := by
  by_cases hth : jsTruthy (jsGet m "thumbnail") = true
  · cases hjt : jsGet m "thumbnail" with
    | none => rw [hjt] at hth; simp [thumbStep, hth, hjt]
    | some v =>
      rw [hjt] at hth
      cases v with
      | str t =>
        cases hdl : downloadFile net t
            (dir ++ ["media_" ++ natStr i ++ "_thumb." ++ getExtension t "jpg"]) fs with
        | ok fs2 =>
          have hpres := downloadFile_read_metadata net t dir _ fs fs2 home id hdl
            (media_ne_metadata3 _ _ _)
          simp [thumbStep, hth, hjt, hdl, hpres]
        | error e => simp [thumbStep, hth, hjt, hdl]
      | null => simp [thumbStep, hth, hjt]
      | bool b => simp [thumbStep, hth, hjt]
      | num n => simp [thumbStep, hth, hjt]
      | arr xs => simp [thumbStep, hth, hjt]
      | obj kvs => simp [thumbStep, hth, hjt]
  · simp [thumbStep, hth]

lemma vidStep_read_metadata (net : Net) (dir : FsPath) (m : Json) (i : Nat) (fs : FS)
    (files errs : List String) (jobs : List (String × String))
    (home : FsPath) (id : String) :
    FS.read (vidStep net dir m i fs files errs jobs).2.1 (metadataPath home id)
      = FS.read fs (metadataPath home id) := by
  cases hv : jsGet m "variants" with
  | none => simp [vidStep, hv]
  | some v =>
    cases v with
    | arr vs =>
      cases vs with
      | nil => simp [vidStep, hv]
      | cons v0 tl =>
        cases hu : jsGet v0 "url" with
        | none => simp [vidStep, hv, hu]
        | some w =>
          cases w with
          | str u =>
            cases hdl : downloadFile net u (dir ++ ["media_" ++ natStr i ++ ".mp4"]) fs with
            | ok fs3 =>
              have hpres := downloadFile_read_metadata net u dir _ fs fs3 home id hdl
                (media_ne_metadata2 _ _)
              simp [vidStep, hv, hu, hdl, hpres]
            | error e => simp [vidStep, hv, hu, hdl]
          | null => simp [vidStep, hv, hu]
          | bool b => simp [vidStep, hv, hu]
          | num n => simp [vidStep, hv, hu]
          | arr xs => simp [vidStep, hv, hu]
          | obj kvs => simp [vidStep, hv, hu]
    | null => simp [vidStep, hv]
    | bool b => simp [vidStep, hv]
    | num n => simp [vidStep, hv]
    | str t => simp [vidStep, hv]
    | obj kvs => simp [vidStep, hv]

lemma videoStep_read_metadata (net : Net) (dir : FsPath) (m : Json) (i : Nat) (fs : FS)
    (home : FsPath) (id : String) :
    FS.read (videoStep net dir m i fs).2.1 (metadataPath home id)
      = FS.read fs (metadataPath home id) := by
  have hts := thumbStep_read_metadata net dir m i fs home id
  rcases hteq : thumbStep net dir m i fs with ⟨oe, fs2, files, errs, jobs⟩
  rw [hteq] at hts
  simp only at hts
  cases oe with
  | some e => simpa [videoStep, hteq] using hts
  | none =>
    have hvs := vidStep_read_metadata net dir m i fs2 files errs jobs home id
    simp only [videoStep, hteq]
    rw [hvs]
    exact hts

lemma downloadMediaLoop_read_metadata (net : Net) (dir : FsPath) (home : FsPath) (id : String) :
    ∀ (ms : List Json) (i : Nat) (fs : FS),
      FS.read (downloadMediaLoop net dir ms i fs).fs (metadataPath home id)
        = FS.read fs (metadataPath home id) := by
  intro ms
  induction ms with
  | nil => intro i fs; rfl
  | cons m rest ih =>
    intro i fs
    by_cases hp : isTypeStr m "photo" = true
    · cases hu : jsGet m "url" with
      | none => simp [downloadMediaLoop, hp, hu]
      | some v =>
        cases v with
        | str u =>
          cases hdl : downloadFile net u
              (dir ++ ["media_" ++ natStr i ++ "." ++ getExtension u "jpg"]) fs with
          | ok fs2 =>
            have hpres := downloadFile_read_metadata net u dir _ fs fs2 home id hdl
              (media_ne_metadata3 _ _ _)
            simp [downloadMediaLoop, hp, hu, hdl, ih (i + 1) fs2, hpres]
          | error e => simp [downloadMediaLoop, hp, hu, hdl]
        | null => simp [downloadMediaLoop, hp, hu]
        | bool b => simp [downloadMediaLoop, hp, hu]
        | num n => simp [downloadMediaLoop, hp, hu]
        | arr xs => simp [downloadMediaLoop, hp, hu]
        | obj kvs => simp [downloadMediaLoop, hp, hu]
    · by_cases hv : (isTypeStr m "video" || isTypeStr m "animated_gif") = true
      · have hvp := videoStep_read_metadata net dir m i fs home id
        rcases hveq : videoStep net dir m i fs with ⟨oe, fs2, files, errs, jobs⟩
        rw [hveq] at hvp
        simp only at hvp
        cases oe with
        | some e => simpa [downloadMediaLoop, hp, hv, hveq] using hvp
        | none =>
          simp only [downloadMediaLoop, hp, hv, hveq]
          simp only [Bool.false_eq_true, if_false, if_true]
          rw [ih (i + 1) fs2]
          exact hvp
      · simp [downloadMediaLoop, hp, hv, ih i fs]

lemma archiveInto_fail (env : Env) (net : Net) (fs0 : FS) (id : String) (ad : FsPath)
    (cp : Bool) (tweet : Json) (ev0 : List NetEvent) (r : CliResult)
    (hr : archiveInto env net fs0 id ad cp tweet ev0 = r) (hexit : r.exitCode ≠ 0) :
    FS.read r.fs (metadataPath env.home id) = FS.read fs0 (metadataPath env.home id)
    ∧ r.out = [] ∧ ∃ msg, r.err.getLast? = some ("Error: " ++ msg) := by
  simp only [archiveInto] at hr
  cases ho : (downloadMediaLoop net ad (formatTweetMedia tweet) 0
      (FS.write (FS.write fs0 (ad ++ ["tweet.json"]) (strPretty tweet))
        (ad ++ ["tweet_formatted.json"]) (strPretty (formatTweet tweet)))).error with
  | some e =>
    simp only [ho] at hr
    subst hr
    refine ⟨?_, rfl, e.message, List.getLast?_concat _⟩
    rw [downloadMediaLoop_read_metadata net ad env.home id]
    rw [FS.read_write_ne, FS.read_write_ne]
    · exact append_singleton_ne _ _ _ _ tweet_json_ne_metadata
    · exact append_singleton_ne _ _ _ _ tweet_formatted_ne_metadata
  | none =>
    simp only [ho] at hr
    subst hr
    exact absurd rfl hexit

lemma continueArchive_fail (env : Env) (net : Net) (fs0 : FS) (id : String)
    (customDir : Option String) (tweet : Json) (ev0 : List NetEvent) (r : CliResult)
    (hr : continueArchive env net fs0 id customDir tweet ev0 = r) (hexit : r.exitCode ≠ 0) :
    FS.read r.fs (metadataPath env.home id) = FS.read fs0 (metadataPath env.home id)
    ∧ r.out = [] ∧ ∃ msg, r.err.getLast? = some ("Error: " ++ msg) := by
  rcases customDir with _ | cd
  · exact archiveInto_fail env net fs0 id _ _ tweet ev0 r hr hexit
  · by_cases hcd : cd = ""
    · simp only [continueArchive, if_pos hcd] at hr
      exact archiveInto_fail env net fs0 id _ _ tweet ev0 r hr hexit
    · simp only [continueArchive, if_neg hcd] at hr
      exact archiveInto_fail env net fs0 id _ _ tweet ev0 r hr hexit

set_option maxRecDepth 400000 in
/-- C2 counterexample: a forced re-archive of the already-archived ID 5
whose media download fails exits 1, yet the earlier metadata marker —
which the failing run never touches — is still present, so `isArchived`
remains true and the next non-forced call short-circuits on the stale
record (unchanged file system, no network events) instead of redoing
the operation, refuting the claim on forced re-archives. -/
theorem forced_refail_keeps_stale_marker :
    isArchived sampleEnv.home sampleStaleFs "5" = true
    ∧ sampleForcedRun.exitCode = 1
    ∧ isArchived sampleEnv.home sampleForcedRun.fs "5" = true
    ∧ runMain sampleEnv sampleFailNet sampleForcedRun.fs "5" none false
        = ⟨0, sampleForcedRun.fs,
            [strValC (cachedSummary "5" (pathToString (getArchiveDir sampleEnv.home "5"))
              (getArchiveMetadata sampleEnv.home sampleForcedRun.fs "5"))], [], []⟩ :=
  ⟨rfl, by decide, by decide, rfl⟩

/-- C2 amended: when an archive run of a not-yet-archived ID fails —
the object fetch or any media download throws — the run exits nonzero
with the error propagated as the final `Error: <message>` stderr line,
prints nothing to stdout, leaves the metadata marker absent
(`isArchived` still false), and a subsequent non-forced call therefore
performs the entire fetch-and-archive operation again instead of
returning a cached record.  (For a forced re-archive of an archived ID
the marker survives the failure; see the counterexample.) -/
theorem archive_all_or_nothing (env : Env) (net : Net) (fs : FS) (input id : String)
    (customDir : Option String) (force : Bool) (r : CliResult)
    (hex : extractTweetId input = .ok id)
    (hnarch : isArchived env.home fs id = false)
    (hr : runMain env net fs input customDir force = r)
    (hexit : r.exitCode ≠ 0) :
    isArchived env.home r.fs id = false
    ∧ r.out = []
    ∧ (∃ msg, r.err.getLast? = some ("Error: " ++ msg))
    ∧ ∀ (net2 : Net) (cd2 : Option String),
        runMain env net2 r.fs input cd2 false
          = runFetchAndArchive env net2 r.fs id cd2 false := by
  have hrm : runFetchAndArchive env net fs id customDir force = r := by
    simp only [runMain, hex] at hr
    simp only [hnarch, Bool.and_false, Bool.false_eq_true, if_false] at hr
    exact hr
  have key : FS.read r.fs (metadataPath env.home id) = FS.read fs (metadataPath env.home id)
      ∧ r.out = [] ∧ ∃ msg, r.err.getLast? = some ("Error: " ++ msg) := by
    simp only [runFetchAndArchive] at hrm
    by_cases hc : (!(jsTruthy (getCachedTweet env.home fs id)) || force) = true
    · rw [if_pos hc] at hrm
      cases hf : fetchTweetFromApi net id with
      | error e =>
        simp only [hf] at hrm
        subst hrm
        exact ⟨rfl, rfl, e.message, rfl⟩
      | ok tweet =>
        simp only [hf] at hrm
        have h2 := continueArchive_fail env net _ id customDir tweet _ r hrm hexit
        refine ⟨?_, h2.2.1, h2.2.2⟩
        rw [h2.1]
        exact FS.read_write_ne fs (tweetCachePath env.home id) (metadataPath env.home id)
          (strPretty tweet) (tweetCachePath_ne_metadataPath env.home id id)
    · rw [if_neg hc] at hrm
      exact continueArchive_fail env net fs id customDir _ _ r hrm hexit
  have harchr : isArchived env.home r.fs id = false := by
    unfold isArchived at hnarch ⊢
    rw [key.1]
    exact hnarch
  refine ⟨harchr, key.2.1, key.2.2, ?_⟩
  intro net2 cd2
  simp [runMain, hex, harchr]

set_option maxRecDepth 100000 in
/-- Witness for C2: archiving the one-photo `sampleTweet` under a
network whose downloads fail leaves the marker absent, stdout empty, a
final `Error:` line on stderr, and the rerun un-short-circuited. -/
theorem archive_all_or_nothing_witness :
    extractTweetId "5" = .ok "5"
    ∧ isArchived sampleEnv.home [] "5" = false
    ∧ sampleFailRun.exitCode ≠ 0
    ∧ (isArchived sampleEnv.home sampleFailRun.fs "5" = false
      ∧ sampleFailRun.out = []
      ∧ (∃ msg, sampleFailRun.err.getLast? = some ("Error: " ++ msg))
      ∧ ∀ (net2 : Net) (cd2 : Option String),
          runMain sampleEnv net2 sampleFailRun.fs "5" cd2 false
            = runFetchAndArchive sampleEnv net2 sampleFailRun.fs "5" cd2 false) :=
  ⟨rfl, rfl, by decide,
    archive_all_or_nothing sampleEnv sampleFailNet [] "5" "5" none false sampleFailRun
      rfl rfl rfl (by decide)⟩

lemma runMain_fail (env : Env) (net : Net) (fs : FS) (input : String)
    (customDir : Option String) (force : Bool) (r : CliResult)
    (hr : runMain env net fs input customDir force = r) (hexit : r.exitCode ≠ 0) :
    r.out = [] ∧ ∃ msg, r.err.getLast? = some ("Error: " ++ msg) := by
  cases hex : extractTweetId input with
  | error e =>
    simp only [runMain, hex] at hr
    subst hr
    exact ⟨rfl, e.message, rfl⟩
  | ok id =>
    simp only [runMain, hex] at hr
    by_cases hsc : (!force && isArchived env.home fs id) = true
    · rw [if_pos hsc] at hr
      subst hr
      exact absurd rfl hexit
    · rw [if_neg hsc] at hr
      simp only [runFetchAndArchive] at hr
      by_cases hc : (!(jsTruthy (getCachedTweet env.home fs id)) || force) = true
      · rw [if_pos hc] at hr
        cases hf : fetchTweetFromApi net id with
        | error e =>
          simp only [hf] at hr
          subst hr
          exact ⟨rfl, e.message, rfl⟩
        | ok tweet =>
          simp only [hf] at hr
          exact (continueArchive_fail env net _ id customDir tweet _ r hr hexit).2
      · rw [if_neg hc] at hr
        exact (continueArchive_fail env net fs id customDir _ _ r hr hexit).2

/-- C10 counterexample: the empty invocation fails (exit code 1) yet
prints the usage text — `printUsage` uses `console.log` — so standard
output is nonempty and the error stream carries no message at all,
refuting "nothing on stdout and the error message on stderr" for
failing invocations. -/
theorem cli_failure_usage_on_stdout :
    (runCli sampleEnv sampleFailNet [] []).exitCode = 1
    ∧ (runCli sampleEnv sampleFailNet [] []).out ≠ []
    ∧ (runCli sampleEnv sampleFailNet [] []).err = [] :=
  ⟨rfl, by decide, rfl⟩

/-- C10 amended: every failing invocation exits nonzero and prints
either the usage text to standard output (the argument-validation
failures, via `console.log`) or nothing to standard output with the
error propagated as a final `Error: <message>` stderr line (every
unhandled runtime error). -/
theorem cli_failure_streams (env : Env) (net : Net) (argv : List String) (fs : FS)
    (hexit : (runCli env net argv fs).exitCode ≠ 0) :
    (runCli env net argv fs).out = [usageText]
    ∨ ((runCli env net argv fs).out = []
        ∧ ∃ msg, (runCli env net argv fs).err.getLast? = some ("Error: " ++ msg)) := by
  by_cases hempty : (argv.isEmpty || argv.contains "--help") = true
  · have hprop : argv = [] ∨ "--help" ∈ argv := by simpa using hempty
    left
    simp [runCli, hprop]
  · have hnprop : ¬(argv = [] ∨ "--help" ∈ argv) := by simpa using hempty
    rcases hp : parseArgs argv none none false with ⟨inp, cd, fc⟩
    cases inp with
    | none =>
      left
      simp [runCli, hnprop, hp]
    | some input =>
      right
      have hrc : runCli env net argv fs = runMain env net fs input cd fc := by
        simp [runCli, hnprop, hp]
      rw [hrc] at hexit ⊢
      exact runMain_fail env net fs input cd fc _ rfl hexit

set_option maxRecDepth 100000 in
/-- Witness for the amended C10: the failing-download run of ID `5`
exits 1 with empty stdout and a final `Error:` line on stderr. -/
theorem cli_failure_streams_witness :
    (runCli sampleEnv sampleFailNet ["5"] []).exitCode ≠ 0
    ∧ ((runCli sampleEnv sampleFailNet ["5"] []).out = [usageText]
      ∨ ((runCli sampleEnv sampleFailNet ["5"] []).out = []
          ∧ ∃ msg, (runCli sampleEnv sampleFailNet ["5"] []).err.getLast?
              = some ("Error: " ++ msg))) :=
  ⟨by decide, cli_failure_streams sampleEnv sampleFailNet ["5"] [] (by decide)⟩

lemma lookupField_append_right_none (l1 l2 : List (String × Json)) (k : String)
    (h : lookupField l2 k = none) : lookupField (l1 ++ l2) k = lookupField l1 k := by
  induction l1 with
  | nil => simp [lookupField, h]
  | cons p rest ih => simp only [List.cons_append, lookupField, List.append_eq, ih]

lemma append_slash_ne_empty (a b : String) : (a ++ "/") ++ b ≠ "" := by
  intro h
  have h2 := congrArg String.data h
  rw [String.data_append, String.data_append] at h2
  simp at h2

lemma pathToString_ne_empty_concat (p : FsPath) (cd : String) (h : cd ≠ "") :
    pathToString (p ++ [cd]) ≠ "" := by
  cases p with
  | nil => simpa [pathToString] using h
  | cons s rest =>
    cases hr : rest ++ [cd] with
    | nil => exact absurd hr (by simp)
    | cons x t =>
      simp only [List.cons_append, hr, pathToString]
      exact append_slash_ne_empty _ _

lemma pathToString_resolvePath_ne (cwd : FsPath) (cd : String) (h : cd ≠ "") :
    pathToString (resolvePath cwd cd) ≠ "" := by
  unfold resolvePath
  by_cases habs : strStartsWith cd "/" = true
  · simpa [habs, pathToString] using h
  · simp only [habs, Bool.false_eq_true, if_false]
    exact pathToString_ne_empty_concat cwd cd h

lemma buildMetadata_archive_dir (tid turl now dirStr : String) (files : List String)
    (formatted : Json) :
    jsGet (buildMetadata tid turl now dirStr files formatted) "archive_dir"
      = some (Json.str dirStr) := by
  cases hu : jsGet2 formatted "user" "screen_name" with
  | none =>
    cases hjt : jsGet formatted "text" with
    | none =>
      simp only [buildMetadata, hu, hjt, optField]
      simp [jsGet, lookupField]
    | some v =>
      cases v <;>
        (simp only [buildMetadata, hu, hjt, optField]
         simp [jsGet, lookupField])
  | some w =>
    cases hjt : jsGet formatted "text" with
    | none =>
      simp only [buildMetadata, hu, hjt, optField]
      simp [jsGet, lookupField]
    | some v =>
      cases v <;>
        (simp only [buildMetadata, hu, hjt, optField]
         simp [jsGet, lookupField])

lemma cachedSummary_archive_dir (tid dflt dirStr : String) (md : Json)
    (h : jsGet md "archive_dir" = some (.str dirStr)) (hne : dirStr ≠ "") :
    jsGet (cachedSummary tid dflt (some md)) "archive_dir" = some (Json.str dirStr) := by
  cases ha : jsGet md "archived_at" with
  | none =>
    simp only [cachedSummary, Option.some_bind, h, ha, optField, jsOr, jsTruthy]
    simp [jsGet, lookupField, hne]
  | some v =>
    simp only [cachedSummary, Option.some_bind, h, ha, optField, jsOr, jsTruthy]
    simp [jsGet, lookupField, hne]

lemma archiveInto_success (env : Env) (net : Net) (fs0 : FS) (id : String) (ad : FsPath)
    (tweet : Json) (ev0 : List NetEvent) (r : CliResult)
    (hr : archiveInto env net fs0 id ad true tweet ev0 = r) (hexit : r.exitCode = 0) :
    ∃ files md,
      md = buildMetadata id ("https://twitter.com/i/status/" ++ id) env.now
          (pathToString ad) files (formatTweet tweet)
      ∧ FS.read r.fs (metadataPath env.home id) = some (strPretty md)
      ∧ FS.read r.fs (ad ++ ["metadata.json"]) = some (strPretty md) := by
  simp only [archiveInto, saveArchiveMetadata] at hr
  cases ho : (downloadMediaLoop net ad (formatTweetMedia tweet) 0
      (FS.write (FS.write fs0 (ad ++ ["tweet.json"]) (strPretty tweet))
        (ad ++ ["tweet_formatted.json"]) (strPretty (formatTweet tweet)))).error with
  | some e =>
    simp only [ho] at hr
    subst hr
    simp at hexit
  | none =>
    simp only [ho, if_true] at hr
    subst hr
    refine ⟨(downloadMediaLoop net ad (formatTweetMedia tweet) 0
        (FS.write (FS.write fs0 (ad ++ ["tweet.json"]) (strPretty tweet))
          (ad ++ ["tweet_formatted.json"]) (strPretty (formatTweet tweet)))).mediaFiles,
      _, rfl, ?_, ?_⟩
    · by_cases heq : (ad ++ ["metadata.json"]) = metadataPath env.home id
      · rw [← heq]
        exact FS.read_write_self _ _ _
      · rw [FS.read_write_ne _ _ _ _ heq]
        exact FS.read_write_self _ _ _
    · exact FS.read_write_self _ _ _

/-- C5: a fresh archive run with a nonempty `--dir` override that exits
successfully writes the pretty-printed metadata record both to the
default per-ID marker path and to the override directory, making
`isArchived` true for the default location; the stored record's
`archive_dir` is the resolved override path, and every subsequent
non-forced call for the same ID — with any or no override — returns the
stored record as the cached summary (whose `archive_dir` is still the
earlier override path) with the file system entirely unchanged and no
network events. -/
theorem dir_override_archives_both_then_short_circuits
    (env : Env) (net : Net) (fs : FS) (input id cd : String) (force : Bool) (r : CliResult)
    (hcd : cd ≠ "")
    (hex : extractTweetId input = .ok id)
    (hnarch : isArchived env.home fs id = false)
    (hr : runMain env net fs input (some cd) force = r)
    (hexit : r.exitCode = 0) :
    ∃ md,
      FS.read r.fs (metadataPath env.home id) = some (strPretty md)
      ∧ FS.read r.fs (resolvePath env.cwd cd ++ ["metadata.json"]) = some (strPretty md)
      ∧ isArchived env.home r.fs id = true
      ∧ getArchiveMetadata env.home r.fs id = some md
      ∧ jsGet md "archive_dir" = some (Json.str (pathToString (resolvePath env.cwd cd)))
      ∧ jsGet (cachedSummary id (pathToString (getArchiveDir env.home id)) (some md))
          "archive_dir" = some (Json.str (pathToString (resolvePath env.cwd cd)))
      ∧ ∀ (net2 : Net) (cd2 : Option String) (input2 : String),
          extractTweetId input2 = .ok id →
          runMain env net2 r.fs input2 cd2 false
            = ⟨0, r.fs, [strValC (cachedSummary id (pathToString (getArchiveDir env.home id))
                (some md))], [], []⟩ := by
  have hrm : runFetchAndArchive env net fs id (some cd) force = r := by
    simp only [runMain, hex] at hr
    simp only [hnarch, Bool.and_false, Bool.false_eq_true, if_false] at hr
    exact hr
  have hmain : ∃ fs0 tweet ev0,
      archiveInto env net fs0 id (resolvePath env.cwd cd) true tweet ev0 = r := by
    simp only [runFetchAndArchive] at hrm
    by_cases hc : (!(jsTruthy (getCachedTweet env.home fs id)) || force) = true
    · rw [if_pos hc] at hrm
      cases hf : fetchTweetFromApi net id with
      | error e =>
        simp only [hf] at hrm
        subst hrm
        simp at hexit
      | ok tweet =>
        simp only [hf] at hrm
        exact ⟨_, tweet, _, by simpa only [continueArchive, if_neg hcd] using hrm⟩
    · rw [if_neg hc] at hrm
      exact ⟨fs, _, _, by simpa only [continueArchive, if_neg hcd] using hrm⟩
  obtain ⟨fs0, tweet, ev0, hai⟩ := hmain
  obtain ⟨files, md, hmd, hread1, hread2⟩ :=
    archiveInto_success env net fs0 id _ tweet ev0 r hai hexit
  have harch : isArchived env.home r.fs id = true := by
    unfold isArchived
    rw [hread1]
    rfl
  have hget : getArchiveMetadata env.home r.fs id = some md := by
    simp [getArchiveMetadata, hread1, jsParse_strPretty]
  have hdir : jsGet md "archive_dir"
      = some (Json.str (pathToString (resolvePath env.cwd cd))) := by
    rw [hmd]
    exact buildMetadata_archive_dir _ _ _ _ _ _
  have hsum := cachedSummary_archive_dir id (pathToString (getArchiveDir env.home id))
    (pathToString (resolvePath env.cwd cd)) md hdir (pathToString_resolvePath_ne env.cwd cd hcd)
  refine ⟨md, hread1, hread2, harch, hget, hdir, hsum, ?_⟩
  intro net2 cd2 input2 hex2
  simp [runMain, hex2, harch, hget]

set_option maxRecDepth 400000 in
/-- Witness for C5: archiving ID 7 with `--dir out` writes the
metadata in both places and the rerun short-circuits, for the concrete
sample environment. -/
theorem dir_override_archives_both_then_short_circuits_witness :
    ("out" : String) ≠ ""
    ∧ extractTweetId "7" = .ok "7"
    ∧ isArchived sampleEnv.home [] "7" = false
    ∧ sampleDirRun.exitCode = 0
    ∧ ∃ md,
      FS.read sampleDirRun.fs (metadataPath sampleEnv.home "7") = some (strPretty md)
      ∧ FS.read sampleDirRun.fs (resolvePath sampleEnv.cwd "out" ++ ["metadata.json"])
          = some (strPretty md)
      ∧ isArchived sampleEnv.home sampleDirRun.fs "7" = true
      ∧ getArchiveMetadata sampleEnv.home sampleDirRun.fs "7" = some md
      ∧ jsGet md "archive_dir" = some (Json.str (pathToString (resolvePath sampleEnv.cwd "out")))
      ∧ jsGet (cachedSummary "7" (pathToString (getArchiveDir sampleEnv.home "7")) (some md))
          "archive_dir" = some (Json.str (pathToString (resolvePath sampleEnv.cwd "out")))
      ∧ ∀ (net2 : Net) (cd2 : Option String) (input2 : String),
          extractTweetId input2 = .ok "7" →
          runMain sampleEnv net2 sampleDirRun.fs input2 cd2 false
            = ⟨0, sampleDirRun.fs,
                [strValC (cachedSummary "7" (pathToString (getArchiveDir sampleEnv.home "7"))
                  (some md))], [], []⟩ :=
  ⟨by decide, rfl, rfl, by decide,
    dir_override_archives_both_then_short_circuits sampleEnv sampleOkNet [] "7" "7" "out"
      false sampleDirRun (by decide) rfl rfl rfl (by decide)⟩
